import Mathlib

/-!
Verification of the prefab scene extraction and codec program.

The development embeds, in order:
* the data model (records, dynamic entities, scenes, prefabs, type registry);
* the branch/leaf graph walker inlined in `serialize_world_system`;
* the `DynamicSceneBuilder` deny-list extraction calls of `serialize_world_system`;
* the prefab codec (`PrefabSerializer`, `PrefabDeserializer`, `PrefabVisitor`)
  together with a text layer for the document grammar;
* the asset loader error formatting (`PrefabLoader::load`).

Parts that live in external crates (the RON printer/parser, bevy's
`EntitiesSerializer` / `SceneEntitiesDeserializer`, `DynamicSceneBuilder`) are
modelled from the specification's contracts; each such definition carries a
doc comment starting with `Modelled from the spec:`.
-/

/-! ## Data model -/

/-- Type identifiers resolvable in the type registry (`std::any::type_name` paths). -/
abbrev TypeId := String

/-- A Record: a typed value attached to a Node.  The payload is kept opaque
(the registry-driven field encoding is abstracted into a string). -/
structure Record where
  typeId : TypeId
  value : String
deriving DecidableEq, Repr

/-- One entry of a `DynamicScene`: a node placeholder with its extracted records
(bevy's `DynamicEntity`). -/
structure DynEntity where
  entity : Nat
  components : List Record
deriving DecidableEq, Repr

/-- The portable snapshot (bevy's `DynamicScene`): resources plus entity entries. -/
structure DynamicScene where
  resources : List Record
  entities : List DynEntity
deriving DecidableEq, Repr

/-- `struct Prefab { name: String, scene: DynamicScene }` from the source. -/
structure Prefab where
  name : String
  scene : DynamicScene
deriving DecidableEq, Repr

/-- The type registry, abstracted to the set of registered type identifiers. -/
abbrev TypeRegistry := List TypeId

/-- The host hierarchy interface consumed by `serialize_world_system`:
`children_of` (a `Query<&Children>`, absent entry allowed), the leaf predicate
(`Query<(), With<LeafNode>>`), and the attached records of a node. -/
structure World where
  childrenOf : Nat → Option (List Nat)
  isLeaf : Nat → Bool
  componentsOf : Nat → List Record

/-! ## Graph walker

The loop inlined in `serialize_world_system`:

```rust
let mut entities = vec![entity_to_save];
let mut leaf_nodes = Vec::new();
let mut entities_to_check = child_query.get(entity_to_save)
    .map(|val| val.iter().cloned().collect()).unwrap_or_else(|_| Vec::default());
while let Some(entity) = entities_to_check.pop() {
    if is_leaf_node.contains(entity) {
        leaf_nodes.push(entity);
    } else {
        entities.push(entity);
        if let Ok(children) = child_query.get(entity) {
            entities_to_check.extend(children.iter().cloned());
        }
    }
}
```

The `Vec` stack is represented with the same element order: `pop` removes the
last element, `extend` appends at the end.  The `while` loop is given explicit
fuel; `none` means the fuel ran out before the stack emptied. -/

def walkLoop (w : World) : Nat → List Nat → List Nat → List Nat →
    Option (List Nat × List Nat)
  | fuel, stack, branches, leaves =>
    match stack.getLast? with
    | none => some (branches, leaves)
    | some e =>
      match fuel with
      | 0 => none
      | fuel' + 1 =>
        if w.isLeaf e then
          walkLoop w fuel' stack.dropLast branches (leaves ++ [e])
        else
          walkLoop w fuel' (stack.dropLast ++ (w.childrenOf e).getD [])
            (branches ++ [e]) leaves

/-- The walk of `serialize_world_system`: the root is put in `entities`
unconditionally, the stack starts as the root's children (empty when the root
has no `Children` entry). -/
def walk (w : World) (root : Nat) (fuel : Nat) :
    Option (List Nat × List Nat) :=
  walkLoop w fuel ((w.childrenOf root).getD []) [root] []

theorem walkLoop_nil (w : World) (fuel : Nat) (br lv : List Nat) :
    walkLoop w fuel [] br lv = some (br, lv) := by
  cases fuel <;> rfl

theorem walkLoop_concat_zero (w : World) (s : List Nat) (e : Nat)
    (br lv : List Nat) : walkLoop w 0 (s ++ [e]) br lv = none := by
  conv_lhs => rw [walkLoop]
  rw [List.getLast?_concat]

theorem walkLoop_concat (w : World) (fuel : Nat) (s : List Nat) (e : Nat)
    (br lv : List Nat) :
    walkLoop w (fuel + 1) (s ++ [e]) br lv =
      if w.isLeaf e then walkLoop w fuel s br (lv ++ [e])
      else walkLoop w fuel (s ++ (w.childrenOf e).getD []) (br ++ [e]) lv := by
  conv_lhs => rw [walkLoop]
  rw [List.getLast?_concat, List.dropLast_concat]

/-! ## Tree-shaped hierarchies

The walker's contract assumes the hierarchy reachable from the root is a tree.
A tree/forest pair makes that precondition explicit: `World.matchT w t` says
the world's `childrenOf` relation agrees with the tree `t` at every node of
`t`, and `Nodup` of the label list says every node is reachable by exactly one
path. -/

mutual
inductive ETree : Type where
  | node : Nat → EForest → ETree
inductive EForest : Type where
  | fnil : EForest
  | fcons : ETree → EForest → EForest
end

def ETree.root : ETree → Nat
  | .node e _ => e

def EForest.roots : EForest → List Nat
  | .fnil => []
  | .fcons t f => t.root :: f.roots

mutual
def ETree.labelsT : ETree → List Nat
  | .node e f => e :: f.labelsF
def EForest.labelsF : EForest → List Nat
  | .fnil => []
  | .fcons t f => t.labelsT ++ f.labelsF
end

mutual
def World.matchT (w : World) : ETree → Bool
  | .node e f => ((w.childrenOf e).getD [] == f.roots) && w.matchF f
def World.matchF (w : World) : EForest → Bool
  | .fnil => true
  | .fcons t f => w.matchT t && w.matchF f
end


mutual
/-- The nodes the walker appends to `entities` (branch classification), per
subtree: a node with the leaf predicate false together with its children's
branch nodes; nothing below a leaf-classified node. -/
def ETree.branchSpecT (p : Nat → Bool) : ETree → List Nat
  | .node e f => if p e then [] else e :: f.branchSpecF p
def EForest.branchSpecF (p : Nat → Bool) : EForest → List Nat
  | .fnil => []
  | .fcons t f => t.branchSpecT p ++ f.branchSpecF p
end

mutual
/-- The nodes the walker appends to `leaf_nodes`, per subtree. -/
def ETree.leafSpecT (p : Nat → Bool) : ETree → List Nat
  | .node e f => if p e then [e] else f.leafSpecF p
def EForest.leafSpecF (p : Nat → Bool) : EForest → List Nat
  | .fnil => []
  | .fcons t f => t.leafSpecT p ++ f.leafSpecF p
end

def EForest.fappend : EForest → EForest → EForest
  | .fnil, g => g
  | .fcons t f, g => .fcons t (f.fappend g)

def EForest.frev : EForest → EForest
  | .fnil => .fnil
  | .fcons t f => f.frev.fappend (.fcons t .fnil)

theorem EForest.roots_fappend : ∀ (f g : EForest),
    (f.fappend g).roots = f.roots ++ g.roots
  | .fnil, _ => rfl
  | .fcons t f, g => by
    simp [EForest.fappend, EForest.roots, EForest.roots_fappend f g]

theorem EForest.labelsF_fappend : ∀ (f g : EForest),
    (f.fappend g).labelsF = f.labelsF ++ g.labelsF
  | .fnil, _ => rfl
  | .fcons t f, g => by
    simp [EForest.fappend, EForest.labelsF, EForest.labelsF_fappend f g]

theorem EForest.branchSpecF_fappend (p : Nat → Bool) : ∀ (f g : EForest),
    (f.fappend g).branchSpecF p = f.branchSpecF p ++ g.branchSpecF p
  | .fnil, _ => rfl
  | .fcons t f, g => by
    simp [EForest.fappend, EForest.branchSpecF,
      EForest.branchSpecF_fappend p f g]

theorem EForest.leafSpecF_fappend (p : Nat → Bool) : ∀ (f g : EForest),
    (f.fappend g).leafSpecF p = f.leafSpecF p ++ g.leafSpecF p
  | .fnil, _ => rfl
  | .fcons t f, g => by
    simp [EForest.fappend, EForest.leafSpecF, EForest.leafSpecF_fappend p f g]

theorem World.matchF_fappend (w : World) : ∀ (f g : EForest),
    w.matchF (f.fappend g) = (w.matchF f && w.matchF g)
  | .fnil, g => by simp [EForest.fappend, World.matchF]
  | .fcons t f, g => by
    simp [EForest.fappend, World.matchF, World.matchF_fappend w f g,
      Bool.and_assoc]

theorem EForest.roots_frev : ∀ (f : EForest), f.frev.roots = f.roots.reverse
  | .fnil => rfl
  | .fcons t f => by
    simp [EForest.frev, EForest.roots_fappend, EForest.roots_frev f,
      EForest.roots]

theorem EForest.labelsF_frev : ∀ (f : EForest), f.frev.labelsF.Perm f.labelsF
  | .fnil => List.Perm.refl _
  | .fcons t f => by
    simp only [EForest.frev, EForest.labelsF_fappend, EForest.labelsF,
      List.append_nil]
    exact ((EForest.labelsF_frev f).append_right _).trans List.perm_append_comm

theorem EForest.branchSpecF_frev (p : Nat → Bool) : ∀ (f : EForest),
    (f.frev.branchSpecF p).Perm (f.branchSpecF p)
  | .fnil => List.Perm.refl _
  | .fcons t f => by
    simp only [EForest.frev, EForest.branchSpecF_fappend, EForest.branchSpecF,
      List.append_nil]
    exact ((EForest.branchSpecF_frev p f).append_right _).trans
      List.perm_append_comm

theorem EForest.leafSpecF_frev (p : Nat → Bool) : ∀ (f : EForest),
    (f.frev.leafSpecF p).Perm (f.leafSpecF p)
  | .fnil => List.Perm.refl _
  | .fcons t f => by
    simp only [EForest.frev, EForest.leafSpecF_fappend, EForest.leafSpecF,
      List.append_nil]
    exact ((EForest.leafSpecF_frev p f).append_right _).trans
      List.perm_append_comm

theorem World.matchF_frev (w : World) : ∀ (f : EForest),
    w.matchF f.frev = w.matchF f
  | .fnil => rfl
  | .fcons t f => by
    simp [EForest.frev, World.matchF_fappend, World.matchF_frev w f,
      World.matchF, Bool.and_comm]

/-! ## Walker invariants -/

/-- Unconditional facts about the loop: outputs extend the accumulators, every
stacked node ends in one of the outputs, nodes added to `entities` beyond the
initial contents failed the leaf predicate and had their children stacked, and
nodes added to `leaf_nodes` satisfied the leaf predicate. -/
theorem walkLoop_inv (w : World) : ∀ (fuel : Nat) (stack br lv b l : List Nat),
    walkLoop w fuel stack br lv = some (b, l) →
    (br <+: b) ∧ (lv <+: l) ∧
    (∀ x ∈ stack, x ∈ b ∨ x ∈ l) ∧
    (∀ e ∈ b, e ∈ br ∨ (w.isLeaf e = false ∧
      ∀ c ∈ (w.childrenOf e).getD [], c ∈ b ∨ c ∈ l)) ∧
    (∀ e ∈ l, e ∈ lv ∨ w.isLeaf e = true) := by
  intro fuel
  induction fuel with
  | zero =>
    intro stack br lv b l h
    rcases List.eq_nil_or_concat stack with rfl | ⟨s, e, rfl⟩
    · rw [walkLoop_nil] at h
      obtain ⟨rfl, rfl⟩ : br = b ∧ lv = l := by
        simpa using h
      exact ⟨List.prefix_refl _, List.prefix_refl _, by simp,
        fun e he => .inl he, fun e he => .inl he⟩
    · rw [List.concat_eq_append] at h
      rw [walkLoop_concat_zero] at h
      cases h
  | succ fuel ih =>
    intro stack br lv b l h
    rcases List.eq_nil_or_concat stack with rfl | ⟨s, e, rfl⟩
    · rw [walkLoop_nil] at h
      obtain ⟨rfl, rfl⟩ : br = b ∧ lv = l := by
        simpa using h
      exact ⟨List.prefix_refl _, List.prefix_refl _, by simp,
        fun e he => .inl he, fun e he => .inl he⟩
    · rw [List.concat_eq_append] at h ⊢
      rw [walkLoop_concat] at h
      by_cases hp : w.isLeaf e
      · rw [if_pos hp] at h
        obtain ⟨h1, h2, h3, h4, h5⟩ := ih s br (lv ++ [e]) b l h
        refine ⟨h1, (List.prefix_append lv [e]).trans h2, ?_, h4, ?_⟩
        · intro x hx
          rcases List.mem_append.mp hx with hx | hx
          · exact h3 x hx
          · right
            exact h2.subset (List.mem_append.mpr (.inr hx))
        · intro e' he'
          rcases h5 e' he' with h' | h'
          · rcases List.mem_append.mp h' with h' | h'
            · exact .inl h'
            · right
              rwa [List.mem_singleton.mp h']
          · exact .inr h'
      · rw [if_neg hp] at h
        obtain ⟨h1, h2, h3, h4, h5⟩ :=
          ih (s ++ (w.childrenOf e).getD []) (br ++ [e]) lv b l h
        refine ⟨(List.prefix_append br [e]).trans h1, h2, ?_, ?_, h5⟩
        · intro x hx
          rcases List.mem_append.mp hx with hx | hx
          · exact h3 x (List.mem_append.mpr (.inl hx))
          · left
            exact h1.subset (List.mem_append.mpr (.inr hx))
        · intro e' he'
          rcases h4 e' he' with h' | h'
          · rcases List.mem_append.mp h' with h' | h'
            · exact .inl h'
            · right
              rw [List.mem_singleton.mp h']
              exact ⟨by simpa using hp,
                fun c hc => h3 c (List.mem_append.mpr (.inr hc))⟩
          · exact .inr h'

/-- When the stack is the (reversed) root list of a forest matching the world,
the loop terminates with enough fuel, and the nodes appended to `entities` /
`leaf_nodes` are exactly the forest's branch / leaf classification, up to
order. -/
theorem walkLoop_forest (w : World) : ∀ (fuel : Nat) (F : EForest)
    (br lv : List Nat), w.matchF F = true → F.labelsF.length ≤ fuel →
    ∃ b2 l2, walkLoop w fuel F.roots.reverse br lv =
        some (br ++ b2, lv ++ l2) ∧
      b2.Perm (F.branchSpecF w.isLeaf) ∧ l2.Perm (F.leafSpecF w.isLeaf) := by
  intro fuel
  induction fuel with
  | zero =>
    intro F br lv hm hfuel
    cases F with
    | fnil =>
      refine ⟨[], [], ?_, List.Perm.refl _, List.Perm.refl _⟩
      simp [EForest.roots, walkLoop_nil, EForest.branchSpecF,
        EForest.leafSpecF]
    | fcons t f =>
      exfalso
      cases t with
      | node e tf =>
        simp [EForest.labelsF, ETree.labelsT] at hfuel
  | succ fuel ih =>
    intro F br lv hm hfuel
    cases F with
    | fnil =>
      refine ⟨[], [], ?_, List.Perm.refl _, List.Perm.refl _⟩
      simp [EForest.roots, walkLoop_nil, EForest.branchSpecF,
        EForest.leafSpecF]
    | fcons t f =>
      cases t with
      | node e tf =>
        simp only [World.matchF, Bool.and_eq_true] at hm
        obtain ⟨hmt, hmf⟩ := hm
        simp only [World.matchT, Bool.and_eq_true, beq_iff_eq] at hmt
        obtain ⟨hch, hmtf⟩ := hmt
        have hroots : (EForest.fcons (ETree.node e tf) f).roots.reverse =
            f.roots.reverse ++ [e] := by
          simp [EForest.roots, ETree.root]
        have hlen : tf.labelsF.length + f.labelsF.length ≤ fuel := by
          simpa [EForest.labelsF, ETree.labelsT, Nat.succ_le_succ_iff] using
            hfuel
        rw [hroots, walkLoop_concat]
        by_cases hp : w.isLeaf e
        · rw [if_pos hp]
          obtain ⟨b2, l2, hrun, hbp, hlp⟩ := ih f br (lv ++ [e]) hmf
            (le_trans (Nat.le_add_left _ _) hlen)
          refine ⟨b2, e :: l2, ?_, ?_, ?_⟩
          · rw [hrun, List.append_assoc]
            rfl
          · simpa [EForest.branchSpecF, ETree.branchSpecT, hp] using hbp
          · simpa [EForest.leafSpecF, ETree.leafSpecT, hp] using
              hlp.cons e
        · rw [if_neg hp, hch]
          have hGroots : (tf.frev.fappend f).roots.reverse =
              f.roots.reverse ++ tf.roots := by
            simp [EForest.roots_fappend, EForest.roots_frev]
          have hGm : w.matchF (tf.frev.fappend f) = true := by
            rw [World.matchF_fappend, World.matchF_frev]
            simp [hmtf, hmf]
          have hGlen : (tf.frev.fappend f).labelsF.length ≤ fuel := by
            rw [EForest.labelsF_fappend, List.length_append,
              (EForest.labelsF_frev tf).length_eq]
            exact hlen
          obtain ⟨b2, l2, hrun, hbp, hlp⟩ := ih (tf.frev.fappend f)
            (br ++ [e]) lv hGm hGlen
          rw [hGroots] at hrun
          refine ⟨e :: b2, l2, ?_, ?_, ?_⟩
          · rw [hrun, List.append_assoc]
            rfl
          · have : (tf.frev.fappend f).branchSpecF w.isLeaf |>.Perm
                (tf.branchSpecF w.isLeaf ++ f.branchSpecF w.isLeaf) := by
              rw [EForest.branchSpecF_fappend]
              exact (EForest.branchSpecF_frev _ tf).append_right _
            have hb := (hbp.trans this).cons e
            simpa [EForest.branchSpecF, ETree.branchSpecT, hp] using hb
          · have : (tf.frev.fappend f).leafSpecF w.isLeaf |>.Perm
                (tf.leafSpecF w.isLeaf ++ f.leafSpecF w.isLeaf) := by
              rw [EForest.leafSpecF_fappend]
              exact (EForest.leafSpecF_frev _ tf).append_right _
            simpa [EForest.leafSpecF, ETree.leafSpecT, hp] using
              hlp.trans this

mutual
theorem ETree.branchSpecT_sublist (p : Nat → Bool) : ∀ t : ETree,
    List.Sublist (t.branchSpecT p) t.labelsT
  | .node e f => by
    rw [ETree.branchSpecT, ETree.labelsT]
    by_cases hp : p e
    · simp [hp]
    · simpa [hp] using (EForest.branchSpecF_sublist p f).cons₂ e
theorem EForest.branchSpecF_sublist (p : Nat → Bool) : ∀ f : EForest,
    List.Sublist (f.branchSpecF p) f.labelsF
  | .fnil => List.Sublist.refl _
  | .fcons t f => by
    rw [EForest.branchSpecF, EForest.labelsF]
    exact (ETree.branchSpecT_sublist p t).append (EForest.branchSpecF_sublist p f)
end

mutual
theorem ETree.leafSpecT_sublist (p : Nat → Bool) : ∀ t : ETree,
    List.Sublist (t.leafSpecT p) t.labelsT
  | .node e f => by
    rw [ETree.leafSpecT, ETree.labelsT]
    by_cases hp : p e
    · simp only [if_pos hp]
      exact (List.nil_sublist f.labelsF).cons₂ e
    · simpa [hp] using (EForest.leafSpecF_sublist p f).cons e
theorem EForest.leafSpecF_sublist (p : Nat → Bool) : ∀ f : EForest,
    List.Sublist (f.leafSpecF p) f.labelsF
  | .fnil => List.Sublist.refl _
  | .fcons t f => by
    rw [EForest.leafSpecF, EForest.labelsF]
    exact (ETree.leafSpecT_sublist p t).append (EForest.leafSpecF_sublist p f)
end

theorem EForest.roots_subset_labelsF : ∀ f : EForest, f.roots ⊆ f.labelsF
  | .fnil => by simp [EForest.roots, EForest.labelsF]
  | .fcons t f => by
    rw [EForest.roots, EForest.labelsF]
    intro x hx
    rcases List.mem_cons.mp hx with rfl | hx
    · cases t with
      | node e tf =>
        simp [ETree.root, ETree.labelsT]
    · exact List.mem_append.mpr (.inr (EForest.roots_subset_labelsF f hx))

mutual
/-- Children of a node the walker classifies as leaf are nodes strictly below
the pruning frontier: they are labels of the tree, yet belong to neither
classification list. -/
theorem ETree.leafChildT (w : World) : ∀ t : ETree, w.matchT t = true →
    t.labelsT.Nodup → ∀ e ∈ t.leafSpecT w.isLeaf,
    ∀ c ∈ (w.childrenOf e).getD [],
      c ∈ t.labelsT ∧ c ∉ t.branchSpecT w.isLeaf ∧ c ∉ t.leafSpecT w.isLeaf
  | .node a f => by
    intro hm hnd e he c hc
    simp only [World.matchT, Bool.and_eq_true, beq_iff_eq] at hm
    obtain ⟨hch, hmf⟩ := hm
    rw [ETree.labelsT] at hnd
    have hna : a ∉ f.labelsF := (List.nodup_cons.mp hnd).1
    have hndf : f.labelsF.Nodup := (List.nodup_cons.mp hnd).2
    by_cases hp : w.isLeaf a
    · rw [ETree.leafSpecT, if_pos hp] at he
      obtain rfl : e = a := List.mem_singleton.mp he
      rw [hch] at hc
      have hcl : c ∈ f.labelsF := EForest.roots_subset_labelsF f hc
      refine ⟨by simp [ETree.labelsT, hcl], ?_, ?_⟩
      · simp [ETree.branchSpecT, hp]
      · rw [ETree.leafSpecT, if_pos hp]
        simp only [List.mem_singleton]
        rintro rfl
        exact hna hcl
    · rw [ETree.leafSpecT, if_neg hp] at he
      obtain ⟨hcl, hcb, hcleaf⟩ := EForest.leafChildF w f hmf hndf e he c hc
      refine ⟨by simp [ETree.labelsT, hcl], ?_, ?_⟩
      · rw [ETree.branchSpecT, if_neg hp]
        simp only [List.mem_cons, not_or]
        exact ⟨fun h => hna (h ▸ hcl), hcb⟩
      · rw [ETree.leafSpecT, if_neg hp]
        exact hcleaf
theorem EForest.leafChildF (w : World) : ∀ f : EForest, w.matchF f = true →
    f.labelsF.Nodup → ∀ e ∈ f.leafSpecF w.isLeaf,
    ∀ c ∈ (w.childrenOf e).getD [],
      c ∈ f.labelsF ∧ c ∉ f.branchSpecF w.isLeaf ∧ c ∉ f.leafSpecF w.isLeaf
  | .fnil => by
    intro _ _ e he
    simp [EForest.leafSpecF] at he
  | .fcons t f => by
    intro hm hnd e he c hc
    simp only [World.matchF, Bool.and_eq_true] at hm
    obtain ⟨hmt, hmf⟩ := hm
    rw [EForest.labelsF] at hnd
    have hndt := hnd.of_append_left
    have hndf := hnd.of_append_right
    have hdisj := List.disjoint_of_nodup_append hnd
    rw [EForest.leafSpecF] at he
    rcases List.mem_append.mp he with he | he
    · obtain ⟨hcl, hcb, hcleaf⟩ := ETree.leafChildT w t hmt hndt e he c hc
      refine ⟨List.mem_append.mpr (.inl hcl), ?_, ?_⟩
      · rw [EForest.branchSpecF]
        simp only [List.mem_append, not_or]
        exact ⟨hcb, fun h =>
          hdisj hcl ((EForest.branchSpecF_sublist w.isLeaf f).subset h)⟩
      · rw [EForest.leafSpecF]
        simp only [List.mem_append, not_or]
        exact ⟨hcleaf, fun h =>
          hdisj hcl ((EForest.leafSpecF_sublist w.isLeaf f).subset h)⟩
    · obtain ⟨hcl, hcb, hcleaf⟩ := EForest.leafChildF w f hmf hndf e he c hc
      refine ⟨List.mem_append.mpr (.inr hcl), ?_, ?_⟩
      · rw [EForest.branchSpecF]
        simp only [List.mem_append, not_or]
        refine ⟨fun h => ?_, hcb⟩
        exact hdisj ((ETree.branchSpecT_sublist w.isLeaf t).subset h) hcl
      · rw [EForest.leafSpecF]
        simp only [List.mem_append, not_or]
        refine ⟨fun h => ?_, hcleaf⟩
        exact hdisj ((ETree.leafSpecT_sublist w.isLeaf t).subset h) hcl
end

mutual
theorem ETree.mem_branchSpecT (p : Nat → Bool) : ∀ t : ETree,
    ∀ e ∈ t.branchSpecT p, p e = false
  | .node a f => by
    intro e he
    rw [ETree.branchSpecT] at he
    by_cases hp : p a
    · simp [hp] at he
    · rw [if_neg hp] at he
      rcases List.mem_cons.mp he with rfl | he
      · simpa using hp
      · exact EForest.mem_branchSpecF p f e he
theorem EForest.mem_branchSpecF (p : Nat → Bool) : ∀ f : EForest,
    ∀ e ∈ f.branchSpecF p, p e = false
  | .fnil => by
    intro e he
    simp [EForest.branchSpecF] at he
  | .fcons t f => by
    intro e he
    rw [EForest.branchSpecF] at he
    rcases List.mem_append.mp he with he | he
    · exact ETree.mem_branchSpecT p t e he
    · exact EForest.mem_branchSpecF p f e he
end

mutual
theorem ETree.mem_leafSpecT (p : Nat → Bool) : ∀ t : ETree,
    ∀ e ∈ t.leafSpecT p, p e = true
  | .node a f => by
    intro e he
    rw [ETree.leafSpecT] at he
    by_cases hp : p a
    · rw [if_pos hp] at he
      rwa [List.mem_singleton.mp he]
    · rw [if_neg hp] at he
      exact EForest.mem_leafSpecF p f e he
theorem EForest.mem_leafSpecF (p : Nat → Bool) : ∀ f : EForest,
    ∀ e ∈ f.leafSpecF p, p e = true
  | .fnil => by
    intro e he
    simp [EForest.leafSpecF] at he
  | .fcons t f => by
    intro e he
    rw [EForest.leafSpecF] at he
    rcases List.mem_append.mp he with he | he
    · exact ETree.mem_leafSpecT p t e he
    · exact EForest.mem_leafSpecF p f e he
end

/-- The full walk of `serialize_world_system` on a world whose hierarchy under
`root` matches the tree `ETree.node root f0`: it terminates, the root heads the
branch list, and the two output lists are the forest classifications up to
order. -/
theorem walk_forest (w : World) (root : Nat) (f0 : EForest) (fuel : Nat)
    (hm : w.matchT (ETree.node root f0) = true)
    (hfuel : f0.labelsF.length ≤ fuel) :
    ∃ b2 l2, walk w root fuel = some (root :: b2, l2) ∧
      b2.Perm (f0.branchSpecF w.isLeaf) ∧ l2.Perm (f0.leafSpecF w.isLeaf) := by
  simp only [World.matchT, Bool.and_eq_true, beq_iff_eq] at hm
  obtain ⟨hch, hmf⟩ := hm
  have hm2 : w.matchF f0.frev = true := by rw [World.matchF_frev]; exact hmf
  have hlen : f0.frev.labelsF.length ≤ fuel := by
    rw [(EForest.labelsF_frev f0).length_eq]
    exact hfuel
  obtain ⟨b2, l2, hrun, hbp, hlp⟩ := walkLoop_forest w fuel f0.frev [root] []
    hm2 hlen
  rw [EForest.roots_frev, List.reverse_reverse] at hrun
  refine ⟨b2, l2, ?_, ?_, ?_⟩
  · rw [walk, hch]
    simpa using hrun
  · exact hbp.trans (EForest.branchSpecF_frev _ f0)
  · exact hlp.trans (EForest.leafSpecF_frev _ f0)

theorem walkLoop_congr (w w' : World)
    (hc : ∀ e, (w'.childrenOf e).getD [] = (w.childrenOf e).getD [])
    (hl : ∀ e, w'.isLeaf e = w.isLeaf e) :
    ∀ (fuel : Nat) (stack br lv : List Nat),
      walkLoop w' fuel stack br lv = walkLoop w fuel stack br lv := by
  intro fuel
  induction fuel with
  | zero =>
    intro stack br lv
    rcases List.eq_nil_or_concat stack with rfl | ⟨s, e, rfl⟩
    · rw [walkLoop_nil, walkLoop_nil]
    · rw [List.concat_eq_append, walkLoop_concat_zero, walkLoop_concat_zero]
  | succ fuel ih =>
    intro stack br lv
    rcases List.eq_nil_or_concat stack with rfl | ⟨s, e, rfl⟩
    · rw [walkLoop_nil, walkLoop_nil]
    · rw [List.concat_eq_append, walkLoop_concat, walkLoop_concat, hl e, hc e]
      by_cases hp : w.isLeaf e
      · rw [if_pos hp, if_pos hp, ih]
      · rw [if_neg hp, if_neg hp, ih]

/-! ## Walker claims -/

/-- C4: Root is never a leaf.  On any walk whose hierarchy reachable from
`root` is a tree, the root node appears in the branch list and never in the
leaf list, with no assumption about the leaf predicate's value at the root. -/
theorem c4_root_never_leaf (w : World) (root : Nat) (f0 : EForest) (fuel : Nat)
    (hm : w.matchT (ETree.node root f0) = true)
    (hnd : (ETree.node root f0).labelsT.Nodup)
    (hfuel : f0.labelsF.length ≤ fuel) :
    ∃ b l, walk w root fuel = some (b, l) ∧ root ∈ b ∧ root ∉ l := by
  obtain ⟨b2, l2, hrun, hbp, hlp⟩ := walk_forest w root f0 fuel hm hfuel
  have hroot : root ∉ f0.labelsF :=
    (List.nodup_cons.mp (by simpa [ETree.labelsT] using hnd)).1
  refine ⟨root :: b2, l2, hrun, List.mem_cons_self _ _, fun hmem => ?_⟩
  exact hroot ((EForest.leafSpecF_sublist _ f0).subset (hlp.subset hmem))

/-- C9: On a tree-shaped hierarchy the walk terminates (given fuel at least
the number of nodes) and visits no node twice: both output lists are
duplicate-free and mutually disjoint. -/
theorem c9_termination_no_dup (w : World) (root : Nat) (f0 : EForest)
    (fuel : Nat) (hm : w.matchT (ETree.node root f0) = true)
    (hnd : (ETree.node root f0).labelsT.Nodup)
    (hfuel : f0.labelsF.length ≤ fuel) :
    ∃ b l, walk w root fuel = some (b, l) ∧ b.Nodup ∧ l.Nodup ∧
      ∀ e ∈ b, e ∉ l := by
  obtain ⟨b2, l2, hrun, hbp, hlp⟩ := walk_forest w root f0 fuel hm hfuel
  have hnd' : (root :: f0.labelsF).Nodup := by simpa [ETree.labelsT] using hnd
  have hroot : root ∉ f0.labelsF := (List.nodup_cons.mp hnd').1
  have hndf : f0.labelsF.Nodup := (List.nodup_cons.mp hnd').2
  refine ⟨root :: b2, l2, hrun, ?_, ?_, ?_⟩
  · refine List.nodup_cons.mpr ⟨fun h => ?_, ?_⟩
    · exact hroot
        ((EForest.branchSpecF_sublist _ f0).subset (hbp.subset h))
    · exact hbp.nodup_iff.mpr
        (hndf.sublist (EForest.branchSpecF_sublist _ f0))
  · exact hlp.nodup_iff.mpr (hndf.sublist (EForest.leafSpecF_sublist _ f0))
  · intro e he hel
    rcases List.mem_cons.mp he with rfl | he
    · exact hroot ((EForest.leafSpecF_sublist _ f0).subset (hlp.subset hel))
    · have h1 : w.isLeaf e = false :=
        EForest.mem_branchSpecF _ f0 e (hbp.subset he)
      have h2 : w.isLeaf e = true :=
        EForest.mem_leafSpecF _ f0 e (hlp.subset hel)
      rw [h1] at h2
      cases h2

/-- C5: Per-node classification of the walk on a tree-shaped hierarchy: nodes
in the leaf list satisfy the predicate; non-root nodes in the branch list
falsify it; every child of a branch-listed node is visited; no child of a
leaf-listed node is visited; and a missing `children_of` entry behaves exactly
like an empty child list (never an error). -/
theorem c5_classification (w : World) (root : Nat) (f0 : EForest) (fuel : Nat)
    (hm : w.matchT (ETree.node root f0) = true)
    (hnd : (ETree.node root f0).labelsT.Nodup)
    (hfuel : f0.labelsF.length ≤ fuel) :
    ∃ b l, walk w root fuel = some (b, l) ∧
      (∀ e ∈ l, w.isLeaf e = true) ∧
      (∀ e ∈ b, e ≠ root → w.isLeaf e = false) ∧
      (∀ e ∈ b, ∀ c ∈ (w.childrenOf e).getD [], c ∈ b ∨ c ∈ l) ∧
      (∀ e ∈ l, ∀ c ∈ (w.childrenOf e).getD [], c ∉ b ∧ c ∉ l) ∧
      (∀ fuel2, walk ⟨fun e => some ((w.childrenOf e).getD []), w.isLeaf,
        w.componentsOf⟩ root fuel2 = walk w root fuel2) := by
  obtain ⟨b2, l2, hrun, hbp, hlp⟩ := walk_forest w root f0 fuel hm hfuel
  have hrun' := hrun
  rw [walk] at hrun'
  obtain ⟨h1, h2, h3, h4, h5⟩ := walkLoop_inv w fuel _ _ _ _ _ hrun'
  have hnd' : (root :: f0.labelsF).Nodup := by simpa [ETree.labelsT] using hnd
  have hroot : root ∉ f0.labelsF := (List.nodup_cons.mp hnd').1
  have hndf : f0.labelsF.Nodup := (List.nodup_cons.mp hnd').2
  have hmf : w.matchF f0 = true := by
    simp only [World.matchT, Bool.and_eq_true, beq_iff_eq] at hm
    exact hm.2
  refine ⟨root :: b2, l2, hrun, ?_, ?_, ?_, ?_, ?_⟩
  · intro e he
    rcases h5 e he with h | h
    · simp at h
    · exact h
  · intro e he hne
    rcases h4 e he with h | h
    · exact absurd (List.mem_singleton.mp h) hne
    · exact h.1
  · intro e he c hc
    rcases h4 e he with h | h
    · obtain rfl := List.mem_singleton.mp h
      exact h3 c hc
    · exact h.2 c hc
  · intro e he c hc
    have hspec : e ∈ f0.leafSpecF w.isLeaf := hlp.subset he
    obtain ⟨hcl, hcb, hcleaf⟩ := EForest.leafChildF w f0 hmf hndf e hspec c hc
    constructor
    · intro hcb'
      rcases List.mem_cons.mp hcb' with rfl | hcb'
      · exact hroot hcl
      · exact hcb (hbp.subset hcb')
    · intro hcl'
      exact hcleaf (hlp.subset hcl')
  · intro fuel2
    rw [walk, walk]
    have : (((⟨fun e => some ((w.childrenOf e).getD []), w.isLeaf,
        w.componentsOf⟩ : World).childrenOf root).getD []) =
        (w.childrenOf root).getD [] := rfl
    rw [this]
    exact walkLoop_congr w ⟨fun e => some ((w.childrenOf e).getD []),
      w.isLeaf, w.componentsOf⟩ (fun e => rfl) (fun e => rfl) fuel2 _ _ _

/-- Example world for the walker witnesses: the spec's concrete scenario — root
0 with children 1 (leaf) and 2 (branch); 2 has child 3 (leaf). -/
def wEx : World where
  childrenOf := fun e =>
    if e = 0 then some [1, 2] else if e = 2 then some [3] else none
  isLeaf := fun e => e == 1 || e == 3
  componentsOf := fun _ => []

/-- The tree of children of root 0 in `wEx`. -/
def fEx : EForest :=
  .fcons (.node 1 .fnil)
    (.fcons (.node 2 (.fcons (.node 3 .fnil) .fnil)) .fnil)

/-- Example world where the leaf predicate holds on the root itself. -/
def wExRootMarked : World where
  childrenOf := fun e => if e = 0 then some [1] else none
  isLeaf := fun _ => true
  componentsOf := fun _ => []

theorem c4_root_never_leaf_witness :
    ∃ b l, walk wExRootMarked 0 10 = some (b, l) ∧ 0 ∈ b ∧ 0 ∉ l :=
  c4_root_never_leaf wExRootMarked 0
    (.fcons (.node 1 .fnil) .fnil) 10 (by decide) (by decide) (by decide)

theorem c9_termination_no_dup_witness :
    ∃ b l, walk wEx 0 10 = some (b, l) ∧ b.Nodup ∧ l.Nodup ∧
      ∀ e ∈ b, e ∉ l :=
  c9_termination_no_dup wEx 0 fEx 10 (by decide) (by decide) (by decide)

theorem c5_classification_witness :
    ∃ b l, walk wEx 0 10 = some (b, l) ∧
      (∀ e ∈ l, wEx.isLeaf e = true) ∧
      (∀ e ∈ b, e ≠ 0 → wEx.isLeaf e = false) ∧
      (∀ e ∈ b, ∀ c ∈ (wEx.childrenOf e).getD [], c ∈ b ∨ c ∈ l) ∧
      (∀ e ∈ l, ∀ c ∈ (wEx.childrenOf e).getD [], c ∉ b ∧ c ∉ l) ∧
      (∀ fuel2, walk ⟨fun e => some ((wEx.childrenOf e).getD []), wEx.isLeaf,
        wEx.componentsOf⟩ 0 fuel2 = walk wEx 0 fuel2) :=
  c5_classification wEx 0 fEx 10 (by decide) (by decide) (by decide)

/-! ## Subgraph extraction (`DynamicSceneBuilder` calls in
`serialize_world_system`) -/

/-- Rust type path of the denied positioning record (`deny::<GlobalTransform>`). -/
def GlobalTransformId : TypeId :=
  "bevy_transform::components::global_transform::GlobalTransform"

/-- Rust type path of the denied hierarchy record (`deny::<Children>`). -/
def ChildrenId : TypeId := "bevy_hierarchy::components::children::Children"

/-- Modelled from the spec: bevy's `DynamicSceneBuilder` (external crate) —
a deny-list of record types plus the entries extracted so far.  `deny` grows
the deny-list; extraction captures each entity's attached records except the
currently denied types. -/
structure DynamicSceneBuilder where
  denyList : List TypeId
  extracted : List DynEntity

/-- Modelled from the spec: `DynamicSceneBuilder::from_world` starts with no
filter and nothing extracted. -/
def DynamicSceneBuilder.fromWorld : DynamicSceneBuilder := ⟨[], []⟩

/-- Modelled from the spec: `deny::<T>()` adds `T` to the builder's deny-list. -/
def DynamicSceneBuilder.deny (b : DynamicSceneBuilder) (t : TypeId) :
    DynamicSceneBuilder :=
  { b with denyList := b.denyList ++ [t] }

/-- Modelled from the spec: extracting one entity records its attached records
minus the currently denied types. -/
def DynamicSceneBuilder.extractEntity (w : World) (b : DynamicSceneBuilder)
    (e : Nat) : DynamicSceneBuilder :=
  { b with extracted := b.extracted ++
      [⟨e, (w.componentsOf e).filter
        (fun r => !(b.denyList.contains r.typeId))⟩] }

/-- Modelled from the spec: `extract_entities` extracts each entity in order. -/
def DynamicSceneBuilder.extractEntities (w : World) (b : DynamicSceneBuilder)
    (es : List Nat) : DynamicSceneBuilder :=
  es.foldl (DynamicSceneBuilder.extractEntity w) b

/-- Modelled from the spec: `build` produces the snapshot; only entities were
extracted, so resources are empty. -/
def DynamicSceneBuilder.build (b : DynamicSceneBuilder) : DynamicScene :=
  ⟨[], b.extracted⟩

/-- The extraction phase of `serialize_world_system`: deny `GlobalTransform`,
extract the branch nodes, additionally deny `Children` on the same builder,
extract the leaf nodes, build. -/
def serializeWorldExtract (w : World) (entities leafNodes : List Nat) :
    DynamicScene :=
  (((DynamicSceneBuilder.fromWorld.deny GlobalTransformId).extractEntities w
      entities).deny ChildrenId |>.extractEntities w leafNodes).build

theorem extractEntities_spec (w : World) : ∀ (es : List Nat)
    (b : DynamicSceneBuilder),
    (b.extractEntities w es).denyList = b.denyList ∧
    (b.extractEntities w es).extracted = b.extracted ++
      es.map (fun e => ⟨e, (w.componentsOf e).filter
        (fun r => !(b.denyList.contains r.typeId))⟩) := by
  intro es
  induction es with
  | nil =>
    intro b
    simp [DynamicSceneBuilder.extractEntities]
  | cons e es ih =>
    intro b
    obtain ⟨hd, hx⟩ := ih (b.extractEntity w e)
    constructor
    · rw [DynamicSceneBuilder.extractEntities, List.foldl_cons, ← DynamicSceneBuilder.extractEntities, hd]
      rfl
    · rw [DynamicSceneBuilder.extractEntities, List.foldl_cons, ← DynamicSceneBuilder.extractEntities, hx]
      simp [DynamicSceneBuilder.extractEntity]

theorem getD_append_length_add (l1 l2 : List DynEntity) (i : Nat)
    (d : DynEntity) : (l1 ++ l2).getD (l1.length + i) d = l2.getD i d := by
  induction l1 with
  | nil => simp
  | cons x l1 ih => simpa [Nat.succ_add] using ih

theorem getD_map_components (f : Nat → DynEntity) : ∀ (l : List Nat) (i : Nat)
    (d : DynEntity), i < l.length → (l.map f).getD i d = f (l.getD i 0) := by
  intro l
  induction l with
  | nil => simp
  | cons x l ih =>
    intro i d hi
    cases i with
    | zero => simp
    | succ i => simpa using ih i d (by simpa using hi)

/-- C3: Extraction deny policy.  Branch nodes keep all attached records except
`GlobalTransform`; leaf nodes keep all attached records except both
`GlobalTransform` and `Children` (the deny-list accumulates on the shared
builder), so a leaf entry never carries the hierarchy record even when the
live node has children. -/
theorem c3_deny_policy (w : World) (branches leaves : List Nat) :
    (serializeWorldExtract w branches leaves).entities =
      branches.map (fun e => ⟨e, (w.componentsOf e).filter
        (fun r => !(r.typeId == GlobalTransformId))⟩) ++
      leaves.map (fun e => ⟨e, (w.componentsOf e).filter
        (fun r => !(r.typeId == GlobalTransformId) &&
          !(r.typeId == ChildrenId))⟩) ∧
    ∀ i, i < leaves.length →
      ∀ r ∈ ((serializeWorldExtract w branches leaves).entities.getD
        (branches.length + i) ⟨0, []⟩).components,
        r.typeId ≠ GlobalTransformId ∧ r.typeId ≠ ChildrenId := by
  have hp1 : (fun r : Record =>
      !((DynamicSceneBuilder.fromWorld.deny
        GlobalTransformId).denyList.contains r.typeId)) =
      fun r : Record => !(r.typeId == GlobalTransformId) := by
    funext r
    simp only [DynamicSceneBuilder.fromWorld, DynamicSceneBuilder.deny]
    by_cases h : r.typeId = GlobalTransformId <;> simp [h]
  have hmain : (serializeWorldExtract w branches leaves).entities =
      branches.map (fun e => ⟨e, (w.componentsOf e).filter
        (fun r => !(r.typeId == GlobalTransformId))⟩) ++
      leaves.map (fun e => ⟨e, (w.componentsOf e).filter
        (fun r => !(r.typeId == GlobalTransformId) &&
          !(r.typeId == ChildrenId))⟩) := by
    obtain ⟨hd1, hx1⟩ := extractEntities_spec w branches
      (DynamicSceneBuilder.fromWorld.deny GlobalTransformId)
    obtain ⟨hd2, hx2⟩ := extractEntities_spec w leaves
      (((DynamicSceneBuilder.fromWorld.deny GlobalTransformId).extractEntities
        w branches).deny ChildrenId)
    have hden2 : (((DynamicSceneBuilder.fromWorld.deny
        GlobalTransformId).extractEntities w branches).deny
        ChildrenId).denyList = [GlobalTransformId, ChildrenId] := by
      rw [DynamicSceneBuilder.deny, hd1]
      rfl
    have hp2 : (fun r : Record =>
        !((((DynamicSceneBuilder.fromWorld.deny
          GlobalTransformId).extractEntities w branches).deny
          ChildrenId).denyList.contains r.typeId)) =
        fun r : Record => !(r.typeId == GlobalTransformId) &&
          !(r.typeId == ChildrenId) := by
      funext r
      rw [hden2]
      by_cases h1 : r.typeId = GlobalTransformId <;>
        by_cases h2 : r.typeId = ChildrenId <;> simp [h1, h2]
    rw [serializeWorldExtract, DynamicSceneBuilder.build]
    rw [hx2, hp2]
    have hxd : (((DynamicSceneBuilder.fromWorld.deny
        GlobalTransformId).extractEntities w branches).deny
        ChildrenId).extracted = ((DynamicSceneBuilder.fromWorld.deny
        GlobalTransformId).extractEntities w branches).extracted := rfl
    rw [hxd, hx1, hp1]
    rfl
  refine ⟨hmain, ?_⟩
  intro i hi r hr
  rw [hmain] at hr
  rw [← List.length_map branches (fun e => (⟨e, (w.componentsOf e).filter
      (fun r => !(r.typeId == GlobalTransformId))⟩ : DynEntity))] at hr
  rw [getD_append_length_add] at hr
  rw [getD_map_components _ leaves i _ hi] at hr
  have := List.of_mem_filter hr
  simpa using this

/-- Example world for the extraction witness: node 1 is a leaf that still has
live children and a `Children` record attached. -/
def wEx3 : World where
  childrenOf := fun e =>
    if e = 0 then some [1] else if e = 1 then some [2] else none
  isLeaf := fun e => e == 1
  componentsOf := fun _ =>
    [⟨GlobalTransformId, "gt"⟩, ⟨ChildrenId, "ch"⟩,
     ⟨"prefab_test::TestComponent", "Steve"⟩]

theorem c3_deny_policy_witness :
    (serializeWorldExtract wEx3 [0] [1]).entities =
      [0].map (fun e => ⟨e, (wEx3.componentsOf e).filter
        (fun r => !(r.typeId == GlobalTransformId))⟩) ++
      [1].map (fun e => ⟨e, (wEx3.componentsOf e).filter
        (fun r => !(r.typeId == GlobalTransformId) &&
          !(r.typeId == ChildrenId))⟩) ∧
    ∀ i, i < ([1] : List Nat).length →
      ∀ r ∈ ((serializeWorldExtract wEx3 [0] [1]).entities.getD
        (([0] : List Nat).length + i) ⟨0, []⟩).components,
        r.typeId ≠ GlobalTransformId ∧ r.typeId ≠ ChildrenId :=
  c3_deny_policy wEx3 [0] [1]

/-! ## Prefab codec: document text production

The document grammar itself (RON) is an external collaborator; the layout
below is modelled from the spec: a two-field structure `name` then `scene`,
pretty-printed with two-space indentation and `\n` line ends, the scene being
the ordered entity entries with their records. -/

/-- Escape a character for a quoted string (backslash and quote). -/
def quoteChar (c : Char) : List Char :=
  if c = '\\' ∨ c = '"' then ['\\', c] else [c]

/-- Modelled from the spec: quoting of a plain string value in the document
text. -/
def quoteString (s : String) : String :=
  "\"" ++ String.mk (s.data.map quoteChar).flatten ++ "\""

def natDigitChar (n : Nat) : Char :=
  match n with
  | 0 => '0' | 1 => '1' | 2 => '2' | 3 => '3' | 4 => '4'
  | 5 => '5' | 6 => '6' | 7 => '7' | 8 => '8' | _ => '9'

def natCharsAux : Nat → Nat → List Char
  | 0, _ => []
  | fuel + 1, n =>
    if n < 10 then [natDigitChar n]
    else natCharsAux fuel (n / 10) ++ [natDigitChar (n % 10)]

/-- Decimal digits of a natural number, most significant first. -/
def natChars (n : Nat) : List Char := natCharsAux (n + 1) n

theorem natCharsAux_congr (n : Nat) : ∀ (f1 f2 : Nat), n < f1 → n < f2 →
    natCharsAux f1 n = natCharsAux f2 n := by
  induction n using Nat.strong_induction_on with
  | _ n ih =>
    intro f1 f2 h1 h2
    match f1, h1, f2, h2 with
    | f1 + 1, h1, f2 + 1, h2 =>
      rw [natCharsAux, natCharsAux]
      by_cases h : n < 10
      · rw [if_pos h, if_pos h]
      · rw [if_neg h, if_neg h]
        have hlt : n / 10 < n :=
          Nat.div_lt_self (Nat.pos_of_ne_zero (by omega)) (by omega)
        rw [ih (n / 10) hlt f1 f2 (by omega) (by omega)]

theorem natChars_eq (n : Nat) : natChars n =
    if n < 10 then [natDigitChar n]
    else natChars (n / 10) ++ [natDigitChar (n % 10)] := by
  rw [natChars, natChars, natCharsAux]
  by_cases h : n < 10
  · rw [if_pos h, if_pos h]
  · rw [if_neg h, if_neg h]
    have hlt : n / 10 < n :=
      Nat.div_lt_self (Nat.pos_of_ne_zero (by omega)) (by omega)
    rw [natCharsAux_congr (n / 10) n (n / 10 + 1) hlt (by omega)]

/-- Modelled from the spec: registry-driven encoding of one record — the type
identifier must resolve in the registry, otherwise the whole encode fails
(bevy's scene serde returns an error for unregistered types). -/
def encodeRecord (registry : TypeRegistry) (r : Record) :
    Except String String :=
  if registry.contains r.typeId then
    .ok (quoteString r.typeId ++ ": " ++ quoteString r.value)
  else
    .error ("type " ++ r.typeId ++ " is not registered")

/-- Comma-separated record encodings. -/
def encodeRecords (registry : TypeRegistry) : List Record →
    Except String String
  | [] => .ok ""
  | r :: rs =>
    match rs with
    | [] => encodeRecord registry r
    | _ :: _ => do
      let a ← encodeRecord registry r
      let b ← encodeRecords registry rs
      .ok (a ++ ", " ++ b)

/-- Modelled from the spec: one snapshot entry — the node placeholder index
with its `components` map. -/
def encodeEntity (registry : TypeRegistry) (de : DynEntity) :
    Except String String := do
  let rs ← encodeRecords registry de.components
  .ok (String.mk (natChars de.entity) ++ ": (components: \x7b" ++ rs ++
    "\x7d)")

/-- Comma-separated entity encodings. -/
def encodeEntities (registry : TypeRegistry) : List DynEntity →
    Except String String
  | [] => .ok ""
  | de :: des =>
    match des with
    | [] => encodeEntity registry de
    | _ :: _ => do
      let a ← encodeEntity registry de
      let b ← encodeEntities registry des
      .ok (a ++ ", " ++ b)

/-- Modelled from the spec: bevy's `EntitiesSerializer` — the ordered entity
entries of the snapshot as a map document value. -/
def EntitiesSerializer.serialize (registry : TypeRegistry)
    (entities : List DynEntity) : Except String String := do
  let body ← encodeEntities registry entities
  .ok ("\x7b" ++ body ++ "\x7d")

/-- `impl Serialize for PrefabSerializer`: a two-field struct, `name` written
first as a plain string, then `scene` through the registry-driven entity
serializer; the layout (two-space indent, `\n` line ends) comes from the
`PrettyConfig` in `serialize_world_system`.  The scene's `resources` field is
never written. -/
def PrefabSerializer.serialize (prefab : Prefab) (registry : TypeRegistry) :
    Except String String := do
  let sceneText ← EntitiesSerializer.serialize registry prefab.scene.entities
  .ok ("(\n  name: " ++ quoteString prefab.name ++ ",\n  scene: " ++
    sceneText ++ ",\n)")

/-! ## Prefab codec: document text consumption -/

/-- A decode failure: an error code plus the length of the remaining input at
the failure point (from which the source position is recovered). -/
structure DecodeError where
  code : String
  restLen : Nat
deriving DecidableEq, Repr

def errAt (code : String) (rest : List Char) : Except DecodeError α :=
  .error ⟨code, rest.length⟩

def isWsChar (c : Char) : Bool :=
  c = ' ' || c = '\n' || c = '\t' || c = '\r'

/-- Modelled from the spec: the grammar is whitespace-insensitive between
tokens. -/
def skipWs (l : List Char) : List Char := l.dropWhile isWsChar

/-- Consume one expected punctuation character, skipping leading whitespace. -/
def expectTok (c : Char) (l : List Char) : Except DecodeError (List Char) :=
  match skipWs l with
  | [] => errAt ("expected " ++ String.mk [c] ++ ", found end of input") []
  | x :: xs =>
    if x = c then .ok xs
    else errAt ("expected " ++ String.mk [c]) (x :: xs)

def isLowerAlpha (c : Char) : Bool := 'a' ≤ c && c ≤ 'z'

/-- Modelled from the spec: sequence-based struct decoding — the next field
label must be exactly the expected one (no name-based lookup). -/
def expectLabel (s : String) (l : List Char) :
    Except DecodeError (List Char) :=
  let ws := skipWs l
  if ws.takeWhile isLowerAlpha = s.data then .ok (ws.dropWhile isLowerAlpha)
  else errAt ("expected field " ++ s) ws

def isDigitChar (c : Char) : Bool := '0' ≤ c && c ≤ '9'

def digitVal (c : Char) : Nat := c.toNat - 48

/-- Numeric value of a digit list, most significant first. -/
def digitsVal (ds : List Char) : Nat :=
  ds.foldl (fun a c => a * 10 + digitVal c) 0

/-- Parse a decimal natural number (the node placeholder index). -/
def parseNat (l : List Char) : Except DecodeError (Nat × List Char) :=
  let ws := skipWs l
  let ds := ws.takeWhile isDigitChar
  if ds.isEmpty then errAt "expected integer" ws
  else .ok (digitsVal ds, ws.dropWhile isDigitChar)

/-- Scan the inside of a quoted string after the opening quote: an unescaped
quote ends it, a backslash escapes the following character. -/
def scanQuoted : List Char → Option (List Char × List Char)
  | [] => none
  | c :: rest =>
    if c = '"' then some ([], rest)
    else if c = '\\' then
      match rest with
      | [] => none
      | c2 :: rest2 => (scanQuoted rest2).map (fun p => (c2 :: p.1, p.2))
    else (scanQuoted rest).map (fun p => (c :: p.1, p.2))

/-- Parse a quoted string value. -/
def parseString (l : List Char) : Except DecodeError (String × List Char) :=
  match skipWs l with
  | [] => errAt "expected string, found end of input" []
  | c :: xs =>
    if c = '"' then
      match scanQuoted xs with
      | none => errAt "unterminated string" xs
      | some (content, rest) => .ok (String.mk content, rest)
    else errAt "expected string" (c :: xs)

/-- Modelled from the spec: registry-driven decoding of one record — the type
identifier is looked up first and unknown identifiers fail the decode. -/
def parseRecord (registry : TypeRegistry) (l : List Char) :
    Except DecodeError (Record × List Char) := do
  let (tid, r1) ← parseString l
  if registry.contains tid then do
    let r2 ← expectTok ':' r1
    let (v, r3) ← parseString r2
    .ok (⟨tid, v⟩, r3)
  else errAt ("type " ++ tid ++ " is not registered") r1

/-- Parse the body of a `components` map up to and including its closing
brace. -/
def parseRecords (registry : TypeRegistry) : Nat → List Char →
    Except DecodeError (List Record × List Char)
  | 0, l => errAt "recursion limit reached" l
  | fuel + 1, l =>
    match skipWs l with
    | [] => errAt "expected record or end of map, found end of input" []
    | c :: xs =>
      if c = '\x7d' then .ok ([], xs)
      else do
        let (r, r1) ← parseRecord registry (c :: xs)
        match skipWs r1 with
        | [] => errAt "expected , or end of map, found end of input" []
        | c2 :: xs2 =>
          if c2 = ',' then do
            let (rs, r2) ← parseRecords registry fuel xs2
            .ok (r :: rs, r2)
          else if c2 = '\x7d' then .ok ([r], xs2)
          else errAt "expected , or end of map" (c2 :: xs2)

/-- Parse one snapshot entry: `index: (components: { ... })`. -/
def parseEntity (registry : TypeRegistry) (fuel : Nat) (l : List Char) :
    Except DecodeError (DynEntity × List Char) := do
  let (n, r1) ← parseNat l
  let r2 ← expectTok ':' r1
  let r3 ← expectTok '(' r2
  let r4 ← expectLabel "components" r3
  let r5 ← expectTok ':' r4
  let r6 ← expectTok '\x7b' r5
  let (rs, r7) ← parseRecords registry fuel r6
  let r8 ← expectTok ')' r7
  .ok (⟨n, rs⟩, r8)

/-- Parse the body of the scene map up to and including its closing brace. -/
def parseEntities (registry : TypeRegistry) : Nat → Nat → List Char →
    Except DecodeError (List DynEntity × List Char)
  | _, 0, l => errAt "recursion limit reached" l
  | inner, fuel + 1, l =>
    match skipWs l with
    | [] => errAt "expected entity or end of map, found end of input" []
    | c :: xs =>
      if c = '\x7d' then .ok ([], xs)
      else do
        let (de, r1) ← parseEntity registry inner (c :: xs)
        match skipWs r1 with
        | [] => errAt "expected , or end of map, found end of input" []
        | c2 :: xs2 =>
          if c2 = ',' then do
            let (des, r2) ← parseEntities registry inner fuel xs2
            .ok (de :: des, r2)
          else if c2 = '\x7d' then .ok ([de], xs2)
          else errAt "expected , or end of map" (c2 :: xs2)

/-- Modelled from the spec: bevy's `SceneEntitiesDeserializer` — the scene
value is the map of entity entries, each decoded through the registry. -/
def SceneEntitiesDeserializer.deserialize (registry : TypeRegistry)
    (fuel : Nat) (l : List Char) :
    Except DecodeError (List DynEntity × List Char) := do
  let r1 ← expectTok '\x7b' l
  parseEntities registry fuel fuel r1

/-- Consume the end of the two-field struct: an optional trailing comma, then
the closing parenthesis. -/
def parseStructEnd (l : List Char) : Except DecodeError (List Char) :=
  match skipWs l with
  | [] => expectTok ')' []
  | c :: xs => if c = ',' then expectTok ')' xs else expectTok ')' (c :: xs)

/-- `PrefabDeserializer`/`PrefabVisitor::visit_seq`: parse the two-field
struct, reading the `name` field first, then the `scene` field through the
registry-driven scene deserializer, in that fixed order.  A struct that closes
before a field mirrors `next_element` returning `None`: the visitor reports
the missing field.  The rebuilt scene always carries
`resources: Vec::default()`. -/
def PrefabDeserializer.deserialize (registry : TypeRegistry) (text : String) :
    Except DecodeError Prefab := do
    let r1 ← expectTok '(' text.data
    match skipWs r1 with
    | [] => errAt "expected field or end of struct, found end of input" []
    | c :: xs =>
      if c = ')' then errAt "missing field Name" (c :: xs)
      else do
        let r2 ← expectLabel "name" (c :: xs)
        let r3 ← expectTok ':' r2
        let (name, r4) ← parseString r3
        let r5 ← expectTok ',' r4
        match skipWs r5 with
        | [] => errAt "expected field or end of struct, found end of input" []
        | c2 :: xs2 =>
          if c2 = ')' then errAt "missing field Scene" (c2 :: xs2)
          else do
            let r6 ← expectLabel "scene" (c2 :: xs2)
            let r7 ← expectTok ':' r6
            let (entities, r8) ←
              SceneEntitiesDeserializer.deserialize registry
                (text.length + 1) r7
            let _ ← parseStructEnd r8
            .ok ⟨name, ⟨[], entities⟩⟩

/-! ## Asset loader adapter -/

/-- A line/column position in the source text (ron's `Position`). -/
structure SpanPosition where
  line : Nat
  col : Nat
deriving DecidableEq, Repr

/-- Modelled from the spec: the position of a byte offset in the text —
1-based line (newlines before the offset) and column (distance from the last
newline). -/
def spanPosition (text : String) (offset : Nat) : SpanPosition :=
  let pre := text.data.take offset
  ⟨1 + pre.count '\n', 1 + (pre.reverse.takeWhile (fun c => !(c = '\n'))).length⟩

/-- Display of a position, "line:col". -/
def positionText (p : SpanPosition) : String :=
  String.mk (natChars p.line) ++ ":" ++ String.mk (natChars p.col)

/-- `PrefabLoader::load`: feed the bytes to the prefab deserializer; on
failure, format the error as `"{code} at {path}:{position}"` where the
position is recovered from the failure offset (`Deserializer::span_error`). -/
def PrefabLoader.load (registry : TypeRegistry) (path : String)
    (bytes : String) : Except String Prefab :=
  match PrefabDeserializer.deserialize registry bytes with
  | .ok p => .ok p
  | .error e => .error (e.code ++ " at " ++ path ++ ":" ++
      positionText (spanPosition bytes (bytes.length - e.restLen)))

/-! ## Codec lemmas: tokens and characters -/

theorem skipWs_cons_false (c : Char) (l : List Char)
    (h : isWsChar c = false) : skipWs (c :: l) = c :: l := by
  simp [skipWs, List.dropWhile_cons, h]

theorem skipWs_append (pre l : List Char) (h : ∀ c ∈ pre, isWsChar c = true) :
    skipWs (pre ++ l) = skipWs l := by
  induction pre with
  | nil => rfl
  | cons c pre ih =>
    have hc : isWsChar c = true := h c (List.mem_cons_self c pre)
    have ih2 := ih fun x hx => h x (List.mem_cons_of_mem _ hx)
    simp only [skipWs] at ih2 ⊢
    rw [List.cons_append, List.dropWhile_cons, if_pos hc]
    exact ih2

theorem takeWhile_append_all (p : Char → Bool) (l1 l2 : List Char)
    (h : ∀ c ∈ l1, p c = true) :
    (l1 ++ l2).takeWhile p = l1 ++ l2.takeWhile p := by
  induction l1 with
  | nil => rfl
  | cons c l1 ih =>
    have hc : p c = true := h c (List.mem_cons_self c l1)
    rw [List.cons_append, List.takeWhile_cons, if_pos hc,
      ih fun x hx => h x (List.mem_cons_of_mem _ hx), List.cons_append]

theorem dropWhile_append_all (p : Char → Bool) (l1 l2 : List Char)
    (h : ∀ c ∈ l1, p c = true) :
    (l1 ++ l2).dropWhile p = l2.dropWhile p := by
  induction l1 with
  | nil => rfl
  | cons c l1 ih =>
    have hc : p c = true := h c (List.mem_cons_self c l1)
    rw [List.cons_append, List.dropWhile_cons, if_pos hc,
      ih fun x hx => h x (List.mem_cons_of_mem _ hx)]

theorem digit_not_ws (c : Char) (h : isDigitChar c = true) :
    isWsChar c = false := by
  rcases Bool.eq_false_or_eq_true (isWsChar c) with ht | hf
  case inr => exact hf
  · exfalso
    simp only [isDigitChar, Bool.and_eq_true, decide_eq_true_eq] at h
    obtain ⟨h1, _⟩ := h
    simp only [isWsChar, Bool.or_eq_true, decide_eq_true_eq] at ht
    rcases ht with ((rfl | rfl) | rfl) | rfl <;> exact absurd h1 (by decide)

theorem alpha_not_ws (c : Char) (h : isLowerAlpha c = true) :
    isWsChar c = false := by
  rcases Bool.eq_false_or_eq_true (isWsChar c) with ht | hf
  case inr => exact hf
  · exfalso
    simp only [isLowerAlpha, Bool.and_eq_true, decide_eq_true_eq] at h
    obtain ⟨h1, _⟩ := h
    simp only [isWsChar, Bool.or_eq_true, decide_eq_true_eq] at ht
    rcases ht with ((rfl | rfl) | rfl) | rfl <;> exact absurd h1 (by decide)

theorem expectTok_cons (c : Char) (l : List Char) (h : isWsChar c = false) :
    expectTok c (c :: l) = .ok l := by
  rw [expectTok, skipWs_cons_false c l h]
  simp

theorem expectTok_ws (c : Char) (pre l : List Char)
    (hpre : ∀ x ∈ pre, isWsChar x = true) (h : isWsChar c = false) :
    expectTok c (pre ++ c :: l) = .ok l := by
  rw [expectTok, skipWs_append pre _ hpre, skipWs_cons_false c l h]
  simp

theorem expectLabel_emitted (s : String) (rest : List Char)
    (hne : s.data ≠ []) (halpha : ∀ c ∈ s.data, isLowerAlpha c = true) :
    expectLabel s (s.data ++ ':' :: rest) = .ok (':' :: rest) := by
  have hws : skipWs (s.data ++ ':' :: rest) = s.data ++ ':' :: rest := by
    cases hd : s.data with
    | nil => exact absurd hd hne
    | cons c cs =>
      exact skipWs_cons_false c (cs ++ ':' :: rest)
        (alpha_not_ws c (halpha c (by rw [hd]; exact List.mem_cons_self c cs)))
  rw [expectLabel]
  simp only [hws]
  rw [takeWhile_append_all _ _ _ halpha, dropWhile_append_all _ _ _ halpha]
  have h1 : List.takeWhile isLowerAlpha (':' :: rest) = [] := by
    rw [List.takeWhile_cons, if_neg (by decide)]
  have h2 : List.dropWhile isLowerAlpha (':' :: rest) = ':' :: rest := by
    rw [List.dropWhile_cons, if_neg (by decide)]
  rw [h1, h2, List.append_nil, if_pos rfl]

/-! ## Codec lemmas: strings and numbers -/

theorem scanQuoted_quote (rest : List Char) :
    scanQuoted ('"' :: rest) = some ([], rest) := by
  rw [scanQuoted.eq_def]
  simp

theorem scanQuoted_escape (c2 : Char) (rest2 : List Char) :
    scanQuoted ('\\' :: c2 :: rest2) =
      (scanQuoted rest2).map (fun p => (c2 :: p.1, p.2)) := by
  rw [scanQuoted.eq_def]
  simp

theorem scanQuoted_other (c : Char) (rest : List Char) (h1 : c ≠ '"')
    (h2 : c ≠ '\\') : scanQuoted (c :: rest) =
      (scanQuoted rest).map (fun p => (c :: p.1, p.2)) := by
  rw [scanQuoted.eq_def]
  simp [h1, h2]

theorem scanQuoted_emitted : ∀ (cs : List Char) (rest : List Char),
    scanQuoted ((cs.map quoteChar).flatten ++ '"' :: rest) =
      some (cs, rest) := by
  intro cs
  induction cs with
  | nil =>
    intro rest
    simp only [List.map_nil, List.flatten_nil, List.nil_append]
    exact scanQuoted_quote rest
  | cons c cs ih =>
    intro rest
    by_cases hc : c = '\\' ∨ c = '"'
    · have hq : quoteChar c = ['\\', c] := by rw [quoteChar, if_pos hc]
      simp only [List.map_cons, List.flatten_cons, hq, List.cons_append,
        List.nil_append, List.append_assoc]
      rw [scanQuoted_escape, ih rest]
      rfl
    · have hq : quoteChar c = [c] := by rw [quoteChar, if_neg hc]
      push_neg at hc
      simp only [List.map_cons, List.flatten_cons, hq, List.cons_append,
        List.nil_append, List.append_assoc, List.singleton_append]
      rw [scanQuoted_other c _ hc.2 hc.1, ih rest]
      rfl

theorem quoteString_data (s : String) :
    (quoteString s).data =
      '"' :: ((s.data.map quoteChar).flatten ++ ['"']) := by
  simp [quoteString, String.data_append]

theorem parseString_emitted (s : String) (rest : List Char) :
    parseString ((quoteString s).data ++ rest) = .ok (s, rest) := by
  rw [quoteString_data]
  rw [List.cons_append, parseString, skipWs_cons_false _ _ (by decide)]
  simp only [List.append_assoc, List.singleton_append]
  rw [if_pos trivial, scanQuoted_emitted s.data rest]

theorem parseString_ws (pre l : List Char)
    (h : ∀ c ∈ pre, isWsChar c = true) :
    parseString (pre ++ l) = parseString l := by
  rw [parseString, parseString, skipWs_append pre l h]

theorem natDigitChar_isDigit : ∀ d, d < 10 →
    isDigitChar (natDigitChar d) = true := by decide

theorem digitVal_natDigitChar : ∀ d, d < 10 →
    digitVal (natDigitChar d) = d := by decide

theorem natChars_digits (n : Nat) : ∀ c ∈ natChars n, isDigitChar c = true := by
  induction n using Nat.strong_induction_on with
  | _ n ih =>
    rw [natChars_eq]
    by_cases h : n < 10
    · rw [if_pos h]
      intro c hc
      rw [List.mem_singleton.mp hc]
      exact natDigitChar_isDigit n h
    · rw [if_neg h]
      intro c hc
      rcases List.mem_append.mp hc with hc | hc
      · exact ih (n / 10)
          (Nat.div_lt_self (Nat.pos_of_ne_zero (by omega)) (by omega)) c hc
      · rw [List.mem_singleton.mp hc]
        exact natDigitChar_isDigit (n % 10) (Nat.mod_lt n (by omega))

theorem natChars_ne_nil (n : Nat) : natChars n ≠ [] := by
  rw [natChars_eq]
  by_cases h : n < 10
  · rw [if_pos h]
    simp
  · rw [if_neg h]
    simp

theorem digitsVal_concat (ds : List Char) (c : Char) :
    digitsVal (ds ++ [c]) = digitsVal ds * 10 + digitVal c := by
  simp [digitsVal, List.foldl_append]

theorem digitsVal_natChars (n : Nat) : digitsVal (natChars n) = n := by
  induction n using Nat.strong_induction_on with
  | _ n ih =>
    rw [natChars_eq]
    by_cases h : n < 10
    · rw [if_pos h]
      have h2 : digitsVal [natDigitChar n] = digitVal (natDigitChar n) := by
        simp [digitsVal]
      rw [h2, digitVal_natDigitChar n h]
    · rw [if_neg h]
      rw [digitsVal_concat,
        ih (n / 10) (Nat.div_lt_self (Nat.pos_of_ne_zero (by omega))
          (by omega)),
        digitVal_natDigitChar (n % 10) (Nat.mod_lt n (by omega))]
      omega

theorem parseNat_emitted (n : Nat) (rest : List Char) :
    parseNat (natChars n ++ ':' :: rest) = .ok (n, ':' :: rest) := by
  have hws : skipWs (natChars n ++ ':' :: rest) =
      natChars n ++ ':' :: rest := by
    cases hd : natChars n with
    | nil => exact absurd hd (natChars_ne_nil n)
    | cons c cs =>
      exact skipWs_cons_false c (cs ++ ':' :: rest)
        (digit_not_ws c (natChars_digits n c
          (by rw [hd]; exact List.mem_cons_self c cs)))
  have ht : List.takeWhile isDigitChar (':' :: rest) = [] := by
    rw [List.takeWhile_cons, if_neg (by decide)]
  have hdw : List.dropWhile isDigitChar (':' :: rest) = ':' :: rest := by
    rw [List.dropWhile_cons, if_neg (by decide)]
  have hemp : (natChars n).isEmpty = false := by
    cases hd : natChars n with
    | nil => exact absurd hd (natChars_ne_nil n)
    | cons c cs => rfl
  rw [parseNat]
  simp only [hws]
  rw [takeWhile_append_all _ _ _ (natChars_digits n),
    dropWhile_append_all _ _ _ (natChars_digits n), ht, hdw, List.append_nil]
  rw [if_neg (by rw [hemp]; exact Bool.false_ne_true)]
  rw [digitsVal_natChars]

theorem exceptBind_ok {e a b : Type} (x : a) (f : a → Except e b) :
    (Except.ok x >>= f : Except e b) = f x := rfl

theorem skipWs_cons_true (c : Char) (l : List Char) (h : isWsChar c = true) :
    skipWs (c :: l) = skipWs l := by
  rw [skipWs, List.dropWhile_cons, if_pos h]
  rfl

theorem parseString_skip (c : Char) (l : List Char) (h : isWsChar c = true) :
    parseString (c :: l) = parseString l := by
  rw [parseString, parseString, skipWs_cons_true c l h]

theorem expectTok_skip (t c : Char) (l : List Char) (h : isWsChar c = true) :
    expectTok t (c :: l) = expectTok t l := by
  rw [expectTok, expectTok, skipWs_cons_true c l h]

theorem expectLabel_skip (s : String) (c : Char) (l : List Char)
    (h : isWsChar c = true) : expectLabel s (c :: l) = expectLabel s l := by
  rw [expectLabel, expectLabel, skipWs_cons_true c l h]

theorem parseNat_skip (c : Char) (l : List Char) (h : isWsChar c = true) :
    parseNat (c :: l) = parseNat l := by
  rw [parseNat, parseNat, skipWs_cons_true c l h]

theorem parseRecords_skip (registry : TypeRegistry) (fuel : Nat) (c : Char)
    (l : List Char) (h : isWsChar c = true) :
    parseRecords registry (fuel + 1) (c :: l) =
      parseRecords registry (fuel + 1) l := by
  conv_lhs => rw [parseRecords]
  conv_rhs => rw [parseRecords]
  rw [skipWs_cons_true c l h]

theorem parseEntities_skip (registry : TypeRegistry) (inner fuel : Nat)
    (c : Char) (l : List Char) (h : isWsChar c = true) :
    parseEntities registry inner (fuel + 1) (c :: l) =
      parseEntities registry inner (fuel + 1) l := by
  conv_lhs => rw [parseEntities]
  conv_rhs => rw [parseEntities]
  rw [skipWs_cons_true c l h]

/-- Roundtrip of one record through the document text. -/
theorem parseRecord_emitted (registry : TypeRegistry) (r : Record)
    (rest : List Char) (hreg : registry.contains r.typeId = true) :
    parseRecord registry ((quoteString r.typeId).data ++ ':' :: ' ' ::
      ((quoteString r.value).data ++ rest)) = .ok (r, rest) := by
  rw [parseRecord]
  rw [parseString_emitted r.typeId
    (':' :: ' ' :: ((quoteString r.value).data ++ rest))]
  simp only [exceptBind_ok]
  rw [if_pos hreg]
  rw [expectTok_cons ':' _ (by decide)]
  simp only [exceptBind_ok]
  rw [parseString_skip ' ' _ (by decide)]
  rw [parseString_emitted r.value rest]
  simp only [exceptBind_ok]

theorem exceptBind_error {e a b : Type} (x : e) (f : a → Except e b) :
    (Except.error x >>= f : Except e b) = .error x := rfl

theorem encodeRecord_ok (registry : TypeRegistry) (r : Record) (s : String)
    (h : encodeRecord registry r = .ok s) :
    registry.contains r.typeId = true ∧
      s = quoteString r.typeId ++ ": " ++ quoteString r.value := by
  rw [encodeRecord] at h
  by_cases hc : registry.contains r.typeId = true
  · rw [if_pos hc] at h
    cases h
    exact ⟨hc, rfl⟩
  · rw [if_neg hc] at h
    cases h

theorem record_text_data (r : Record) :
    (quoteString r.typeId ++ ": " ++ quoteString r.value).data =
      (quoteString r.typeId).data ++ ':' :: ' ' ::
        (quoteString r.value).data := by
  simp [String.data_append]


theorem parseRecords_emitted_nil (registry : TypeRegistry) (fuel : Nat)
    (rest : List Char) :
    parseRecords registry (fuel + 1) ('\x7d' :: rest) = .ok ([], rest) := by
  conv_lhs => rw [parseRecords]
  rw [skipWs_cons_false _ _ (by decide)]
  simp

theorem parseRecords_emitted_single (registry : TypeRegistry) (r : Record)
    (fuel : Nat) (rest : List Char)
    (hreg : registry.contains r.typeId = true) :
    parseRecords registry (fuel + 1)
      ((quoteString r.typeId ++ ": " ++ quoteString r.value).data ++
        '\x7d' :: rest) = .ok ([r], rest) := by
  obtain ⟨tq, htq⟩ : ∃ t, (quoteString r.typeId).data = '"' :: t :=
    ⟨_, quoteString_data r.typeId⟩
  have hpr := parseRecord_emitted registry r ('\x7d' :: rest) hreg
  rw [htq] at hpr
  simp only [List.cons_append, List.append_assoc] at hpr
  conv_lhs => rw [parseRecords]
  rw [record_text_data r, htq]
  simp only [List.cons_append, List.append_assoc]
  rw [skipWs_cons_false _ _ (by decide)]
  simp only [show ('"' : Char) = '\x7d' ↔ False by simp, if_false]
  rw [hpr]
  simp only [exceptBind_ok]
  rw [skipWs_cons_false _ _ (by decide)]
  simp

theorem parseRecords_emitted_more (registry : TypeRegistry) (r : Record)
    (b : String) (rs2 : List Record) (fuel : Nat) (rest : List Char)
    (hreg : registry.contains r.typeId = true)
    (hrec : parseRecords registry (fuel + 1) (b.data ++ '\x7d' :: rest) =
      .ok (rs2, rest)) :
    parseRecords registry (fuel + 2)
      (((quoteString r.typeId ++ ": " ++ quoteString r.value) ++ ", " ++ b).data
        ++ '\x7d' :: rest) = .ok (r :: rs2, rest) := by
  obtain ⟨tq, htq⟩ : ∃ t, (quoteString r.typeId).data = '"' :: t :=
    ⟨_, quoteString_data r.typeId⟩
  have hpr := parseRecord_emitted registry r
    (',' :: ' ' :: (b.data ++ '\x7d' :: rest)) hreg
  rw [htq] at hpr
  simp only [List.cons_append, List.append_assoc] at hpr
  have hskip := parseRecords_skip registry fuel ' '
    (b.data ++ '\x7d' :: rest) (by decide)
  conv_lhs => rw [parseRecords]
  rw [String.data_append, String.data_append, record_text_data r,
    show (", " : String).data = [',', ' '] from rfl, htq]
  simp only [List.cons_append, List.append_assoc, List.nil_append]
  rw [skipWs_cons_false _ _ (by decide)]
  simp only [show ('"' : Char) = '\x7d' ↔ False by simp, if_false]
  rw [hpr]
  simp only [exceptBind_ok]
  rw [skipWs_cons_false _ _ (by decide)]
  simp [hskip, hrec, exceptBind_ok]

/-- Roundtrip of a `components` map body (up to the closing brace). -/
theorem parseRecords_emitted (registry : TypeRegistry) : ∀ (rs : List Record)
    (s : String), encodeRecords registry rs = .ok s →
    ∀ (fuel : Nat), rs.length < fuel → ∀ (rest : List Char),
    parseRecords registry fuel (s.data ++ '\x7d' :: rest) = .ok (rs, rest)
  | [], s => by
    intro h fuel hf rest
    rw [encodeRecords] at h
    cases h
    match fuel, hf with
    | fuel + 1, _ =>
      simpa using parseRecords_emitted_nil registry fuel rest
  | [r], s => by
    intro h fuel hf rest
    rw [encodeRecords] at h
    obtain ⟨hreg, rfl⟩ := encodeRecord_ok registry r s h
    match fuel, hf with
    | fuel + 1, _ =>
      exact parseRecords_emitted_single registry r fuel rest hreg
  | r :: r2 :: rs, s => by
    intro h fuel hf rest
    rw [encodeRecords] at h
    cases ha : encodeRecord registry r with
    | error e =>
      rw [ha, exceptBind_error] at h
      cases h
    | ok a =>
      rw [ha, exceptBind_ok] at h
      cases hb : encodeRecords registry (r2 :: rs) with
      | error e =>
        rw [hb, exceptBind_error] at h
        cases h
      | ok b =>
        rw [hb, exceptBind_ok] at h
        cases h
        obtain ⟨hreg, rfl⟩ := encodeRecord_ok registry r a ha
        match fuel, hf with
        | fuel + 2, hf =>
          have hf2 : (r2 :: rs).length < fuel + 1 := by
            simpa [Nat.succ_lt_succ_iff] using hf
          exact parseRecords_emitted_more registry r b (r2 :: rs) fuel rest
            hreg (parseRecords_emitted registry (r2 :: rs) b hb (fuel + 1)
              hf2 rest)

/-- Roundtrip of one snapshot entry through the document text. -/
theorem parseEntity_emitted (registry : TypeRegistry) (de : DynEntity)
    (s : String) (fuel : Nat) (rest : List Char)
    (h : encodeEntity registry de = .ok s)
    (hfr : de.components.length < fuel) :
    parseEntity registry fuel (s.data ++ rest) = .ok (de, rest) := by
  rw [encodeEntity] at h
  cases hrs : encodeRecords registry de.components with
  | error e =>
    rw [hrs, exceptBind_error] at h
    cases h
  | ok rsc =>
    rw [hrs, exceptBind_ok] at h
    cases h
    rw [parseEntity]
    simp only [String.data_append,
      show (": (components: \x7b" : String).data =
        ':' :: ' ' :: '(' :: ("components".data ++
          ':' :: ' ' :: ['\x7b']) from rfl,
      show ("\x7d)" : String).data = ['\x7d', ')'] from rfl,
      show (String.mk (natChars de.entity)).data = natChars de.entity from rfl,
      List.cons_append, List.append_assoc, List.nil_append]
    rw [parseNat_emitted de.entity]
    simp only [exceptBind_ok]
    rw [expectTok_cons ':' _ (by decide)]
    simp only [exceptBind_ok]
    rw [expectTok_skip '(' ' ' _ (by decide), expectTok_cons '(' _ (by decide)]
    simp only [exceptBind_ok]
    have hel := expectLabel_emitted "components"
      (' ' :: '\x7b' :: (rsc.data ++ '\x7d' :: ')' :: rest))
      (by decide) (by decide)
    simp only [show ("components".data =
        ['c', 'o', 'm', 'p', 'o', 'n', 'e', 'n', 't', 's']) from rfl,
      List.cons_append, List.nil_append] at hel
    rw [hel]
    simp only [exceptBind_ok]
    rw [expectTok_cons ':' _ (by decide)]
    simp only [exceptBind_ok]
    rw [expectTok_skip '\x7b' ' ' _ (by decide),
      expectTok_cons '\x7b' _ (by decide)]
    simp only [exceptBind_ok]
    rw [parseRecords_emitted registry de.components rsc hrs fuel hfr
      (')' :: rest)]
    simp only [exceptBind_ok]
    rw [expectTok_cons ')' _ (by decide)]
    simp only [exceptBind_ok]

theorem digit_ne_rbrace (c : Char) (h : isDigitChar c = true) :
    ¬(c = '\x7d') := by
  rintro rfl
  exact absurd h (by decide)

theorem encodeEntity_head (registry : TypeRegistry) (de : DynEntity)
    (s : String) (h : encodeEntity registry de = .ok s) :
    ∃ c cs, s.data = c :: cs ∧ isDigitChar c = true := by
  rw [encodeEntity] at h
  cases hrs : encodeRecords registry de.components with
  | error e =>
    rw [hrs, exceptBind_error] at h
    cases h
  | ok rsc =>
    rw [hrs, exceptBind_ok] at h
    cases h
    obtain ⟨c, cs, hcc⟩ : ∃ c cs, natChars de.entity = c :: cs := by
      cases hd : natChars de.entity with
      | nil => exact absurd hd (natChars_ne_nil _)
      | cons c cs => exact ⟨c, cs, rfl⟩
    refine ⟨c, cs ++ ((": (components: \x7b" : String).data ++
      (rsc.data ++ ("\x7d)" : String).data)), ?_, ?_⟩
    · simp [String.data_append, hcc]
    · exact natChars_digits de.entity c
        (by rw [hcc]; exact List.mem_cons_self c cs)

theorem parseEntities_emitted_nil (registry : TypeRegistry)
    (inner fuel : Nat) (rest : List Char) :
    parseEntities registry inner (fuel + 1) ('\x7d' :: rest) =
      .ok ([], rest) := by
  conv_lhs => rw [parseEntities]
  rw [skipWs_cons_false _ _ (by decide)]
  simp

theorem parseEntities_step_single (registry : TypeRegistry)
    (inner fuel : Nat) (de : DynEntity) (c : Char) (cs rest : List Char)
    (hcd : isDigitChar c = true)
    (hpe : parseEntity registry inner (c :: (cs ++ '\x7d' :: rest)) =
      .ok (de, '\x7d' :: rest)) :
    parseEntities registry inner (fuel + 1) (c :: (cs ++ '\x7d' :: rest)) =
      .ok ([de], rest) := by
  conv_lhs => rw [parseEntities]
  rw [skipWs_cons_false _ _ (digit_not_ws c hcd)]
  simp only [eq_false (digit_ne_rbrace c hcd), if_false]
  rw [hpe]
  simp only [exceptBind_ok]
  rw [skipWs_cons_false _ _ (by decide)]
  simp

theorem parseEntities_step_more (registry : TypeRegistry)
    (inner fuel : Nat) (de : DynEntity) (des : List DynEntity) (c : Char)
    (cs l2 rest : List Char) (hcd : isDigitChar c = true)
    (hpe : parseEntity registry inner (c :: (cs ++ ',' :: ' ' :: l2)) =
      .ok (de, ',' :: ' ' :: l2))
    (hrec : parseEntities registry inner (fuel + 1) l2 = .ok (des, rest)) :
    parseEntities registry inner (fuel + 2) (c :: (cs ++ ',' :: ' ' :: l2)) =
      .ok (de :: des, rest) := by
  have hskip := parseEntities_skip registry inner fuel ' ' l2 (by decide)
  conv_lhs => rw [parseEntities]
  rw [skipWs_cons_false _ _ (digit_not_ws c hcd)]
  simp only [eq_false (digit_ne_rbrace c hcd), if_false]
  rw [hpe]
  simp only [exceptBind_ok]
  rw [skipWs_cons_false _ _ (by decide)]
  simp [hskip, hrec, exceptBind_ok]

/-- Roundtrip of the scene map body (up to the closing brace). -/
theorem parseEntities_emitted (registry : TypeRegistry) (inner : Nat) :
    ∀ (des : List DynEntity) (s : String),
    encodeEntities registry des = .ok s →
    (∀ de ∈ des, de.components.length < inner) →
    ∀ (fuel : Nat), des.length < fuel → ∀ (rest : List Char),
    parseEntities registry inner fuel (s.data ++ '\x7d' :: rest) =
      .ok (des, rest)
  | [], s => by
    intro h hfr fuel hf rest
    rw [encodeEntities] at h
    cases h
    match fuel, hf with
    | fuel + 1, _ =>
      simpa using parseEntities_emitted_nil registry inner fuel rest
  | [de], s => by
    intro h hfr fuel hf rest
    rw [encodeEntities] at h
    obtain ⟨c, cs, hsd, hcd⟩ := encodeEntity_head registry de s h
    have hpe := parseEntity_emitted registry de s inner ('\x7d' :: rest) h
      (hfr de (List.mem_cons_self de []))
    rw [hsd, List.cons_append] at hpe
    match fuel, hf with
    | fuel + 1, _ =>
      rw [hsd, List.cons_append]
      exact parseEntities_step_single registry inner fuel de c cs rest hcd hpe
  | de :: de2 :: des, s => by
    intro h hfr fuel hf rest
    rw [encodeEntities] at h
    cases ha : encodeEntity registry de with
    | error e =>
      rw [ha, exceptBind_error] at h
      cases h
    | ok a =>
      rw [ha, exceptBind_ok] at h
      cases hb : encodeEntities registry (de2 :: des) with
      | error e =>
        rw [hb, exceptBind_error] at h
        cases h
      | ok b =>
        rw [hb, exceptBind_ok] at h
        cases h
        obtain ⟨c, cs, hsd, hcd⟩ := encodeEntity_head registry de a ha
        match fuel, hf with
        | fuel + 2, hf =>
          have hf2 : (de2 :: des).length < fuel + 1 := by
            simpa [Nat.succ_lt_succ_iff] using hf
          have hrec := parseEntities_emitted registry inner (de2 :: des) b hb
            (fun x hx => hfr x (List.mem_cons_of_mem de hx)) (fuel + 1)
            hf2 rest
          have hpe := parseEntity_emitted registry de a inner
            (',' :: ' ' :: (b.data ++ '\x7d' :: rest)) ha
            (hfr de (List.mem_cons_self de _))
          rw [hsd, List.cons_append] at hpe
          rw [String.data_append, String.data_append,
            show (", " : String).data = [',', ' '] from rfl, hsd]
          simp only [List.cons_append, List.append_assoc, List.nil_append]
          exact parseEntities_step_more registry inner fuel de (de2 :: des)
            c cs (b.data ++ '\x7d' :: rest) rest hcd hpe hrec

/-! ## Codec lemmas: sizes and encode success -/

theorem encodeRecords_length (registry : TypeRegistry) : ∀ (rs : List Record)
    (s : String), encodeRecords registry rs = .ok s →
    rs.length ≤ s.data.length
  | [], s => by
    intro h
    rw [encodeRecords] at h
    cases h
    simp
  | [r], s => by
    intro h
    rw [encodeRecords] at h
    obtain ⟨_, rfl⟩ := encodeRecord_ok registry r s h
    rw [record_text_data r, quoteString_data]
    simp
  | r :: r2 :: rs, s => by
    intro h
    rw [encodeRecords] at h
    cases ha : encodeRecord registry r with
    | error e =>
      rw [ha, exceptBind_error] at h
      cases h
    | ok a =>
      rw [ha, exceptBind_ok] at h
      cases hb : encodeRecords registry (r2 :: rs) with
      | error e =>
        rw [hb, exceptBind_error] at h
        cases h
      | ok b =>
        rw [hb, exceptBind_ok] at h
        cases h
        have hIH := encodeRecords_length registry (r2 :: rs) b hb
        simp only [String.data_append, List.length_append,
          show (", " : String).data = [',', ' '] from rfl] at *
        simp only [List.length_cons] at hIH ⊢
        omega

theorem encodeEntity_length (registry : TypeRegistry) (de : DynEntity)
    (s : String) (h : encodeEntity registry de = .ok s) :
    de.components.length < s.data.length := by
  rw [encodeEntity] at h
  cases hrs : encodeRecords registry de.components with
  | error e =>
    rw [hrs, exceptBind_error] at h
    cases h
  | ok rsc =>
    rw [hrs, exceptBind_ok] at h
    cases h
    have hIH := encodeRecords_length registry de.components rsc hrs
    have hne := natChars_ne_nil de.entity
    have hpos : 0 < (natChars de.entity).length := List.length_pos.mpr hne
    simp only [String.data_append, List.length_append,
      show (String.mk (natChars de.entity)).data = natChars de.entity
        from rfl,
      show (": (components: \x7b" : String).data.length = 16 from rfl,
      show ("\x7d)" : String).data.length = 2 from rfl]
    omega

theorem encodeEntities_length (registry : TypeRegistry) :
    ∀ (des : List DynEntity) (s : String),
    encodeEntities registry des = .ok s →
    des.length ≤ s.data.length ∧
      ∀ de ∈ des, de.components.length < s.data.length
  | [], s => by
    intro h
    rw [encodeEntities] at h
    cases h
    simp
  | [de], s => by
    intro h
    rw [encodeEntities] at h
    obtain ⟨c, cs, hsd, _⟩ := encodeEntity_head registry de s h
    have hc := encodeEntity_length registry de s h
    constructor
    · rw [hsd]
      simp
    · intro x hx
      rw [List.mem_singleton.mp hx]
      exact hc
  | de :: de2 :: des, s => by
    intro h
    rw [encodeEntities] at h
    cases ha : encodeEntity registry de with
    | error e =>
      rw [ha, exceptBind_error] at h
      cases h
    | ok a =>
      rw [ha, exceptBind_ok] at h
      cases hb : encodeEntities registry (de2 :: des) with
      | error e =>
        rw [hb, exceptBind_error] at h
        cases h
      | ok b =>
        rw [hb, exceptBind_ok] at h
        cases h
        obtain ⟨hlen, hmem⟩ := encodeEntities_length registry (de2 :: des) b hb
        have hlenA := encodeEntity_length registry de a ha
        constructor
        · simp only [String.data_append, List.length_append,
            show (", " : String).data = [',', ' '] from rfl,
            List.length_cons] at hlen ⊢
          omega
        · intro x hx
          simp only [String.data_append, List.length_append,
            show (", " : String).data = [',', ' '] from rfl]
          rcases List.mem_cons.mp hx with rfl | hx
          · omega
          · have := hmem x hx
            omega

theorem encodeRecords_ok_of_registered (registry : TypeRegistry) :
    ∀ (rs : List Record), (∀ r ∈ rs, registry.contains r.typeId = true) →
    ∃ s, encodeRecords registry rs = .ok s
  | [] => fun _ => ⟨"", rfl⟩
  | [r] => by
    intro h
    refine ⟨quoteString r.typeId ++ ": " ++ quoteString r.value, ?_⟩
    rw [encodeRecords, encodeRecord,
      if_pos (h r (List.mem_cons_self r []))]
  | r :: r2 :: rs => by
    intro h
    obtain ⟨b, hb⟩ := encodeRecords_ok_of_registered registry (r2 :: rs)
      (fun x hx => h x (List.mem_cons_of_mem r hx))
    refine ⟨(quoteString r.typeId ++ ": " ++ quoteString r.value) ++
      ", " ++ b, ?_⟩
    rw [encodeRecords, encodeRecord,
      if_pos (h r (List.mem_cons_self r _))]
    rw [exceptBind_ok, hb, exceptBind_ok]

theorem encodeEntity_ok_of_registered (registry : TypeRegistry)
    (de : DynEntity) (h : ∀ r ∈ de.components,
      registry.contains r.typeId = true) :
    ∃ s, encodeEntity registry de = .ok s := by
  obtain ⟨rsc, hrs⟩ := encodeRecords_ok_of_registered registry
    de.components h
  refine ⟨String.mk (natChars de.entity) ++ ": (components: \x7b" ++ rsc ++
    "\x7d)", ?_⟩
  rw [encodeEntity, hrs, exceptBind_ok]

theorem encodeEntities_ok_of_registered (registry : TypeRegistry) :
    ∀ (des : List DynEntity),
    (∀ de ∈ des, ∀ r ∈ de.components, registry.contains r.typeId = true) →
    ∃ s, encodeEntities registry des = .ok s
  | [] => fun _ => ⟨"", rfl⟩
  | [de] => by
    intro h
    obtain ⟨a, ha⟩ := encodeEntity_ok_of_registered registry de
      (h de (List.mem_cons_self de []))
    exact ⟨a, by rw [encodeEntities, ha]⟩
  | de :: de2 :: des => by
    intro h
    obtain ⟨a, ha⟩ := encodeEntity_ok_of_registered registry de
      (h de (List.mem_cons_self de _))
    obtain ⟨b, hb⟩ := encodeEntities_ok_of_registered registry (de2 :: des)
      (fun x hx => h x (List.mem_cons_of_mem de hx))
    refine ⟨a ++ ", " ++ b, ?_⟩
    rw [encodeEntities, ha, exceptBind_ok, hb, exceptBind_ok]

theorem sceneDeserializer_emitted (registry : TypeRegistry)
    (des : List DynEntity) (body : String) (fuel : Nat)
    (h : encodeEntities registry des = .ok body)
    (hfr : ∀ de ∈ des, de.components.length < fuel)
    (hf : des.length < fuel) (rest : List Char) :
    SceneEntitiesDeserializer.deserialize registry fuel
      (' ' :: '\x7b' :: (body.data ++ '\x7d' :: rest)) = .ok (des, rest) := by
  rw [SceneEntitiesDeserializer.deserialize]
  rw [expectTok_skip '\x7b' ' ' _ (by decide),
    expectTok_cons '\x7b' _ (by decide)]
  simp only [exceptBind_ok]
  exact parseEntities_emitted registry fuel des body h hfr fuel hf rest

theorem deserialize_doc (registry : TypeRegistry) (name : String)
    (des : List DynEntity) (body : String)
    (h : encodeEntities registry des = .ok body) :
    PrefabDeserializer.deserialize registry
      ("(\n  name: " ++ quoteString name ++ ",\n  scene: " ++
        ("\x7b" ++ body ++ "\x7d") ++ ",\n)") = .ok ⟨name, ⟨[], des⟩⟩ := by
  set doc : String := "(\n  name: " ++ quoteString name ++ ",\n  scene: " ++
    ("\x7b" ++ body ++ "\x7d") ++ ",\n)" with hdoc
  have hdata : doc.data = '(' :: '\n' :: ' ' :: ' ' :: 'n' :: 'a' :: 'm' ::
      'e' :: ':' :: ' ' :: ((quoteString name).data ++
      (',' :: '\n' :: ' ' :: ' ' :: 's' :: 'c' :: 'e' :: 'n' :: 'e' :: ':' ::
        ' ' :: ('\x7b' :: (body.data ++
          ('\x7d' :: ',' :: '\n' :: ')' :: []))))) := by
    rw [hdoc]
    simp [String.data_append]
  obtain ⟨hdlen, hdmem⟩ := encodeEntities_length registry des body h
  have hlq : doc.length = doc.data.length := rfl
  have hbl : body.data.length < doc.length + 1 := by
    rw [hlq, hdata]
    simp
    omega
  have hf : des.length < doc.length + 1 := by omega
  have hfr : ∀ de ∈ des, de.components.length < doc.length + 1 := by
    intro de hde
    have := hdmem de hde
    omega
  rw [PrefabDeserializer.deserialize]
  rw [hdata]
  rw [expectTok_cons '(' _ (by decide)]
  simp only [exceptBind_ok]
  rw [skipWs_cons_true '\n' _ (by decide), skipWs_cons_true ' ' _ (by decide),
    skipWs_cons_true ' ' _ (by decide), skipWs_cons_false 'n' _ (by decide)]
  simp only [eq_false (show ¬('n' = ')') by decide), if_false]
  have hel1 := expectLabel_emitted "name"
    (' ' :: ((quoteString name).data ++
      (',' :: '\n' :: ' ' :: ' ' :: 's' :: 'c' :: 'e' :: 'n' :: 'e' :: ':' ::
        ' ' :: ('\x7b' :: (body.data ++ ('\x7d' :: ',' :: '\n' :: ')' :: []))))))
    (by decide) (by decide)
  simp only [show ("name".data = ['n', 'a', 'm', 'e']) from rfl,
    List.cons_append, List.nil_append] at hel1
  rw [hel1]
  simp only [exceptBind_ok]
  rw [expectTok_cons ':' _ (by decide)]
  simp only [exceptBind_ok]
  rw [parseString_skip ' ' _ (by decide)]
  rw [parseString_emitted name _]
  simp only [exceptBind_ok]
  rw [expectTok_cons ',' _ (by decide)]
  simp only [exceptBind_ok]
  rw [skipWs_cons_true '\n' _ (by decide), skipWs_cons_true ' ' _ (by decide),
    skipWs_cons_true ' ' _ (by decide), skipWs_cons_false 's' _ (by decide)]
  simp only [eq_false (show ¬('s' = ')') by decide), if_false]
  have hel2 := expectLabel_emitted "scene"
    (' ' :: ('\x7b' :: (body.data ++ ('\x7d' :: ',' :: '\n' :: ')' :: []))))
    (by decide) (by decide)
  simp only [show ("scene".data = ['s', 'c', 'e', 'n', 'e']) from rfl,
    List.cons_append, List.nil_append] at hel2
  rw [hel2]
  simp only [exceptBind_ok]
  rw [expectTok_cons ':' _ (by decide)]
  simp only [exceptBind_ok]
  rw [sceneDeserializer_emitted registry des body (doc.length + 1) h hfr hf
    (',' :: '\n' :: ')' :: [])]
  simp only [exceptBind_ok]
  rw [parseStructEnd]
  rw [skipWs_cons_false ',' _ (by decide)]
  simp only [show ((',' : Char) = ',') = True by simp, if_true]
  rw [expectTok_skip ')' '\n' _ (by decide), expectTok_cons ')' _ (by decide)]
  simp only [exceptBind_ok]

/-! ## Codec claims -/

/-- C1: Round-trip.  For any Prefab whose every record type is registered,
deserializing the text produced by serializing it yields a Prefab equal in
name and in snapshot contents (the entity entries of the scene). -/
theorem c1_round_trip (P : Prefab) (registry : TypeRegistry)
    (hreg : ∀ de ∈ P.scene.entities, ∀ r ∈ de.components,
      registry.contains r.typeId = true) :
    ∃ t P2, PrefabSerializer.serialize P registry = .ok t ∧
      PrefabDeserializer.deserialize registry t = .ok P2 ∧
      P2.name = P.name ∧ P2.scene.entities = P.scene.entities := by
  obtain ⟨body, hbody⟩ := encodeEntities_ok_of_registered registry
    P.scene.entities hreg
  refine ⟨"(\n  name: " ++ quoteString P.name ++ ",\n  scene: " ++
    ("\x7b" ++ body ++ "\x7d") ++ ",\n)",
    ⟨P.name, ⟨[], P.scene.entities⟩⟩, ?_, ?_, rfl, rfl⟩
  · rw [PrefabSerializer.serialize, EntitiesSerializer.serialize, hbody,
      exceptBind_ok, exceptBind_ok]
  · exact deserialize_doc registry P.name P.scene.entities body hbody

/-- Example prefab and registry for the codec witnesses. -/
def prefabEx : Prefab :=
  ⟨"Test", ⟨[], [⟨0, [⟨"prefab_test::TestComponent", "Steve"⟩]⟩, ⟨1, []⟩]⟩⟩

/-- Example registry: the test component plus the two filtered types. -/
def registryEx : TypeRegistry :=
  ["prefab_test::TestComponent", GlobalTransformId, ChildrenId]

theorem c1_round_trip_witness :
    ∃ t P2, PrefabSerializer.serialize prefabEx registryEx = .ok t ∧
      PrefabDeserializer.deserialize registryEx t = .ok P2 ∧
      P2.name = prefabEx.name ∧
      P2.scene.entities = prefabEx.scene.entities :=
  c1_round_trip prefabEx registryEx (by decide)

theorem encodeRecords_error (registry : TypeRegistry) : ∀ (rs : List Record),
    (∃ r ∈ rs, registry.contains r.typeId = false) →
    ∃ m, encodeRecords registry rs = .error m
  | [] => by
    rintro ⟨r, hr, _⟩
    simp at hr
  | [r] => by
    rintro ⟨r2, hr2, hbad⟩
    have hbad2 : registry.contains r.typeId = false := by
      rw [← List.mem_singleton.mp hr2]
      exact hbad
    refine ⟨"type " ++ r.typeId ++ " is not registered", ?_⟩
    rw [encodeRecords, encodeRecord,
      if_neg (by rw [hbad2]; exact Bool.false_ne_true)]
  | r :: r2 :: rs => by
    rintro ⟨x, hx, hbad⟩
    by_cases hc : registry.contains r.typeId = true
    · have hxtail : x ∈ r2 :: rs := by
        rcases List.mem_cons.mp hx with rfl | hx2
        · rw [hc] at hbad
          cases hbad
        · exact hx2
      obtain ⟨m, hm⟩ := encodeRecords_error registry (r2 :: rs)
        ⟨x, hxtail, hbad⟩
      refine ⟨m, ?_⟩
      rw [encodeRecords, encodeRecord, if_pos hc, exceptBind_ok, hm,
        exceptBind_error]
    · refine ⟨"type " ++ r.typeId ++ " is not registered", ?_⟩
      rw [encodeRecords, encodeRecord, if_neg hc, exceptBind_error]

theorem encodeEntity_error (registry : TypeRegistry) (de : DynEntity)
    (hbad : ∃ r ∈ de.components, registry.contains r.typeId = false) :
    ∃ m, encodeEntity registry de = .error m := by
  obtain ⟨m, hm⟩ := encodeRecords_error registry de.components hbad
  exact ⟨m, by rw [encodeEntity, hm, exceptBind_error]⟩

theorem encodeEntities_error (registry : TypeRegistry) :
    ∀ (des : List DynEntity),
    (∃ de ∈ des, ∃ r ∈ de.components, registry.contains r.typeId = false) →
    ∃ m, encodeEntities registry des = .error m
  | [] => by
    rintro ⟨de, hde, _⟩
    simp at hde
  | [de] => by
    rintro ⟨x, hx, hbad⟩
    rw [List.mem_singleton.mp hx] at hbad
    obtain ⟨m, hm⟩ := encodeEntity_error registry de hbad
    exact ⟨m, by rw [encodeEntities, hm]⟩
  | de :: de2 :: des => by
    rintro ⟨x, hx, hbad⟩
    by_cases hd : ∃ r ∈ de.components, registry.contains r.typeId = false
    · obtain ⟨m, hm⟩ := encodeEntity_error registry de hd
      exact ⟨m, by rw [encodeEntities, hm, exceptBind_error]⟩
    · have hall : ∀ r ∈ de.components, registry.contains r.typeId = true := by
        intro r hr
        rcases Bool.eq_false_or_eq_true (registry.contains r.typeId) with
          ht | hf
        · exact ht
        · exact absurd ⟨r, hr, hf⟩ hd
      obtain ⟨a, ha⟩ := encodeEntity_ok_of_registered registry de hall
      have hxtail : x ∈ de2 :: des := by
        rcases List.mem_cons.mp hx with rfl | hx2
        · exact absurd hbad hd
        · exact hx2
      obtain ⟨m, hm⟩ := encodeEntities_error registry (de2 :: des)
        ⟨x, hxtail, hbad⟩
      refine ⟨m, ?_⟩
      rw [encodeEntities, ha, exceptBind_ok, hm, exceptBind_error]

/-- C6: Unknown type fails closed on the write path.  Serializing a prefab
whose snapshot contains a record of an unregistered type returns an error for
the whole operation; being `Except.error`, no document text accompanies it. -/
theorem c6_unknown_type_fails (P : Prefab) (registry : TypeRegistry)
    (hbad : ∃ de ∈ P.scene.entities, ∃ r ∈ de.components,
      registry.contains r.typeId = false) :
    ∃ msg, PrefabSerializer.serialize P registry = .error msg := by
  obtain ⟨m, hm⟩ := encodeEntities_error registry P.scene.entities hbad
  refine ⟨m, ?_⟩
  rw [PrefabSerializer.serialize, EntitiesSerializer.serialize, hm,
    exceptBind_error, exceptBind_error]

theorem c6_unknown_type_fails_witness :
    ∃ msg, PrefabSerializer.serialize
      ⟨"Test", ⟨[], [⟨0, [⟨"unknown::Type", "x"⟩]⟩]⟩⟩ registryEx =
      .error msg :=
  c6_unknown_type_fails ⟨"Test", ⟨[], [⟨0, [⟨"unknown::Type", "x"⟩]⟩]⟩⟩
    registryEx (by decide)

/-- C8: Serialized document shape: exactly two named fields in fixed order,
`name` as a quoted plain string then `scene`, with two-space indentation and
`\n` line ends; the text depends only on the name and the snapshot entries, so
structurally identical prefabs produce byte-identical text. -/
theorem c8_document_layout (P : Prefab) (registry : TypeRegistry) (t : String)
    (h : PrefabSerializer.serialize P registry = .ok t) :
    (∃ st, EntitiesSerializer.serialize registry P.scene.entities = .ok st ∧
      t = "(\n  name: " ++ quoteString P.name ++ ",\n  scene: " ++ st ++
        ",\n)") ∧
    (∀ (P2 : Prefab) (t2 : String),
      PrefabSerializer.serialize P2 registry = .ok t2 →
      P2.name = P.name → P2.scene.entities = P.scene.entities → t2 = t) := by
  rw [PrefabSerializer.serialize] at h
  cases hs : EntitiesSerializer.serialize registry P.scene.entities with
  | error e =>
    rw [hs, exceptBind_error] at h
    cases h
  | ok st =>
    rw [hs, exceptBind_ok] at h
    cases h
    refine ⟨⟨st, rfl, rfl⟩, ?_⟩
    intro P2 t2 h2 hname hents
    rw [PrefabSerializer.serialize, hents, hs, exceptBind_ok] at h2
    cases h2
    rw [hname]

theorem c8_document_layout_witness :
    (∃ st, EntitiesSerializer.serialize registryEx prefabEx.scene.entities =
        .ok st ∧
      "(\n  name: \"Test\",\n  scene: \x7b0: (components: \x7b\"prefab_test::TestComponent\": \"Steve\"\x7d), 1: (components: \x7b\x7d)\x7d,\n)" =
        "(\n  name: " ++ quoteString prefabEx.name ++ ",\n  scene: " ++ st ++
        ",\n)") ∧
    (∀ (P2 : Prefab) (t2 : String),
      PrefabSerializer.serialize P2 registryEx = .ok t2 →
      P2.name = prefabEx.name →
      P2.scene.entities = prefabEx.scene.entities →
      t2 = "(\n  name: \"Test\",\n  scene: \x7b0: (components: \x7b\"prefab_test::TestComponent\": \"Steve\"\x7d), 1: (components: \x7b\x7d)\x7d,\n)") :=
  c8_document_layout prefabEx registryEx _ rfl

theorem expectLabel_mismatch (s1 s2 : String) (rest : List Char)
    (hne2 : s2.data ≠ []) (halpha : ∀ c ∈ s2.data, isLowerAlpha c = true)
    (hne : ¬(s2.data = s1.data)) :
    ∃ e, expectLabel s1 (s2.data ++ ':' :: rest) = .error e := by
  have hws : skipWs (s2.data ++ ':' :: rest) = s2.data ++ ':' :: rest := by
    cases hd : s2.data with
    | nil => exact absurd hd hne2
    | cons c cs =>
      exact skipWs_cons_false c (cs ++ ':' :: rest)
        (alpha_not_ws c (halpha c (by rw [hd]; exact List.mem_cons_self c cs)))
  refine ⟨⟨"expected field " ++ s1, (s2.data ++ ':' :: rest).length⟩, ?_⟩
  rw [expectLabel]
  simp only [hws]
  rw [takeWhile_append_all _ _ _ halpha]
  have h1 : List.takeWhile isLowerAlpha (':' :: rest) = [] := by
    rw [List.takeWhile_cons, if_neg (by decide)]
  rw [h1, List.append_nil, if_neg hne]
  rfl

/-- C2: Sequence-based decoding in fixed order.  The deserializer reads
`name` first then `scene`; a document with the two fields swapped, or with
either field missing, fails with an error (and, the result being
`Except.error`, no partially decoded Prefab is produced). -/
theorem c2_sequence_order (P : Prefab) (registry : TypeRegistry) (st : String)
    (_hst : EntitiesSerializer.serialize registry P.scene.entities = .ok st) :
    (∃ e, PrefabDeserializer.deserialize registry
      ("(\n  scene: " ++ st ++ ",\n  name: " ++ quoteString P.name ++ ",\n)")
      = .error e) ∧
    (∃ e, PrefabDeserializer.deserialize registry
      ("(\n  name: " ++ quoteString P.name ++ ",\n)") = .error e) ∧
    (∃ e, PrefabDeserializer.deserialize registry
      ("(\n  scene: " ++ st ++ ",\n)") = .error e) ∧
    (∃ e, PrefabDeserializer.deserialize registry "()" = .error e) := by
  refine ⟨?_, ?_, ?_, ?_⟩
  · obtain ⟨e1, hml⟩ := expectLabel_mismatch "name" "scene"
      (' ' :: (st.data ++ (',' :: '\n' :: ' ' :: ' ' :: 'n' :: 'a' :: 'm' ::
        'e' :: ':' :: ' ' :: ((quoteString P.name).data ++
          ',' :: '\n' :: ')' :: []))))
      (by decide) (by decide) (by decide)
    simp only [show ("scene".data = ['s', 'c', 'e', 'n', 'e']) from rfl,
      List.cons_append, List.nil_append] at hml
    refine ⟨e1, ?_⟩
    have hdata : ("(\n  scene: " ++ st ++ ",\n  name: " ++
        quoteString P.name ++ ",\n)").data =
        '(' :: '\n' :: ' ' :: ' ' :: 's' :: 'c' :: 'e' :: 'n' :: 'e' :: ':' ::
        ' ' :: (st.data ++ (',' :: '\n' :: ' ' :: ' ' :: 'n' :: 'a' :: 'm' ::
        'e' :: ':' :: ' ' :: ((quoteString P.name).data ++
          ',' :: '\n' :: ')' :: []))) := by
      simp [String.data_append]
    rw [PrefabDeserializer.deserialize, hdata]
    rw [expectTok_cons '(' _ (by decide)]
    simp only [exceptBind_ok]
    rw [skipWs_cons_true '\n' _ (by decide),
      skipWs_cons_true ' ' _ (by decide), skipWs_cons_true ' ' _ (by decide),
      skipWs_cons_false 's' _ (by decide)]
    simp only [eq_false (show ¬(('s' : Char) = ')') by decide), if_false]
    rw [hml, exceptBind_error]
  · refine ⟨⟨"missing field Scene", 1⟩, ?_⟩
    have hdata : ("(\n  name: " ++ quoteString P.name ++ ",\n)").data =
        '(' :: '\n' :: ' ' :: ' ' :: 'n' :: 'a' :: 'm' :: 'e' :: ':' :: ' ' ::
        ((quoteString P.name).data ++ (',' :: '\n' :: ')' :: [])) := by
      simp [String.data_append]
    rw [PrefabDeserializer.deserialize, hdata]
    rw [expectTok_cons '(' _ (by decide)]
    simp only [exceptBind_ok]
    rw [skipWs_cons_true '\n' _ (by decide),
      skipWs_cons_true ' ' _ (by decide), skipWs_cons_true ' ' _ (by decide),
      skipWs_cons_false 'n' _ (by decide)]
    simp only [eq_false (show ¬(('n' : Char) = ')') by decide), if_false]
    have hel1 := expectLabel_emitted "name"
      (' ' :: ((quoteString P.name).data ++ (',' :: '\n' :: ')' :: [])))
      (by decide) (by decide)
    simp only [show ("name".data = ['n', 'a', 'm', 'e']) from rfl,
      List.cons_append, List.nil_append] at hel1
    rw [hel1]
    simp only [exceptBind_ok]
    rw [expectTok_cons ':' _ (by decide)]
    simp only [exceptBind_ok]
    rw [parseString_skip ' ' _ (by decide)]
    rw [parseString_emitted P.name _]
    simp only [exceptBind_ok]
    rw [expectTok_cons ',' _ (by decide)]
    simp only [exceptBind_ok]
    rw [skipWs_cons_true '\n' _ (by decide),
      skipWs_cons_false ')' _ (by decide)]
    simp only [show ((')' : Char) = ')') = True by simp, if_true]
    rfl
  · obtain ⟨e1, hml⟩ := expectLabel_mismatch "name" "scene"
      (' ' :: (st.data ++ (',' :: '\n' :: ')' :: [])))
      (by decide) (by decide) (by decide)
    simp only [show ("scene".data = ['s', 'c', 'e', 'n', 'e']) from rfl,
      List.cons_append, List.nil_append] at hml
    refine ⟨e1, ?_⟩
    have hdata : ("(\n  scene: " ++ st ++ ",\n)").data =
        '(' :: '\n' :: ' ' :: ' ' :: 's' :: 'c' :: 'e' :: 'n' :: 'e' :: ':' ::
        ' ' :: (st.data ++ (',' :: '\n' :: ')' :: [])) := by
      simp [String.data_append]
    rw [PrefabDeserializer.deserialize, hdata]
    rw [expectTok_cons '(' _ (by decide)]
    simp only [exceptBind_ok]
    rw [skipWs_cons_true '\n' _ (by decide),
      skipWs_cons_true ' ' _ (by decide), skipWs_cons_true ' ' _ (by decide),
      skipWs_cons_false 's' _ (by decide)]
    simp only [eq_false (show ¬(('s' : Char) = ')') by decide), if_false]
    rw [hml, exceptBind_error]
  · refine ⟨⟨"missing field Name", 1⟩, ?_⟩
    rw [PrefabDeserializer.deserialize]
    rw [show ("()" : String).data = ['(', ')'] from rfl]
    rw [show (['(', ')'] : List Char) = '(' :: [')'] from rfl]
    rw [expectTok_cons '(' _ (by decide)]
    simp only [exceptBind_ok]
    rw [skipWs_cons_false ')' _ (by decide)]
    simp only [show ((')' : Char) = ')') = True by simp, if_true]
    rfl

theorem c2_sequence_order_witness :
    (∃ e, PrefabDeserializer.deserialize registryEx
      ("(\n  scene: " ++
        "\x7b0: (components: \x7b\"prefab_test::TestComponent\": \"Steve\"\x7d), 1: (components: \x7b\x7d)\x7d"
        ++ ",\n  name: " ++ quoteString prefabEx.name ++ ",\n)")
      = .error e) ∧
    (∃ e, PrefabDeserializer.deserialize registryEx
      ("(\n  name: " ++ quoteString prefabEx.name ++ ",\n)") = .error e) ∧
    (∃ e, PrefabDeserializer.deserialize registryEx
      ("(\n  scene: " ++
        "\x7b0: (components: \x7b\"prefab_test::TestComponent\": \"Steve\"\x7d), 1: (components: \x7b\x7d)\x7d"
        ++ ",\n)") = .error e) ∧
    (∃ e, PrefabDeserializer.deserialize registryEx "()" = .error e) :=
  c2_sequence_order prefabEx registryEx
    "\x7b0: (components: \x7b\"prefab_test::TestComponent\": \"Steve\"\x7d), 1: (components: \x7b\x7d)\x7d"
    rfl

/-- C7: Error locality.  Whenever deserialization fails, the error carries the
failure offset into the source text; the loader formats its message as
`"{code} at {path}:{line}:{col}"`, the offset lies within the text, the line
is one plus the newlines preceding the failure, bounded by the text's total
line count, and the column is at least one. -/
theorem c7_error_locality (registry : TypeRegistry) (path bytes : String)
    (e : DecodeError)
    (h : PrefabDeserializer.deserialize registry bytes = .error e) :
    PrefabLoader.load registry path bytes = .error (e.code ++ " at " ++ path
      ++ ":" ++ positionText (spanPosition bytes (bytes.length - e.restLen)))
    ∧ bytes.length - e.restLen ≤ bytes.length
    ∧ (spanPosition bytes (bytes.length - e.restLen)).line =
        1 + (bytes.data.take (bytes.length - e.restLen)).count '\n'
    ∧ (spanPosition bytes (bytes.length - e.restLen)).line ≤
        1 + bytes.data.count '\n'
    ∧ 1 ≤ (spanPosition bytes (bytes.length - e.restLen)).col := by
  refine ⟨?_, Nat.sub_le _ _, rfl, ?_, ?_⟩
  · rw [PrefabLoader.load, h]
  · have hsub := List.take_sublist (bytes.length - e.restLen) bytes.data
    have := hsub.count_le '\n'
    simp only [spanPosition]
    omega
  · simp [spanPosition]

theorem c7_error_locality_witness :
    PrefabLoader.load registryEx "scenes/test.prefab"
      "(\n  nXme: \"A\",\n  scene: \x7b\x7d,\n)" =
        .error (("expected field name" : String) ++ " at " ++
          "scenes/test.prefab" ++ ":" ++ positionText (spanPosition
            "(\n  nXme: \"A\",\n  scene: \x7b\x7d,\n)"
            (("(\n  nXme: \"A\",\n  scene: \x7b\x7d,\n)" : String).length
              - 25)))
    ∧ ("(\n  nXme: \"A\",\n  scene: \x7b\x7d,\n)" : String).length - 25 ≤
        ("(\n  nXme: \"A\",\n  scene: \x7b\x7d,\n)" : String).length
    ∧ (spanPosition "(\n  nXme: \"A\",\n  scene: \x7b\x7d,\n)"
        (("(\n  nXme: \"A\",\n  scene: \x7b\x7d,\n)" : String).length -
          25)).line =
        1 + (("(\n  nXme: \"A\",\n  scene: \x7b\x7d,\n)" : String).data.take
          (("(\n  nXme: \"A\",\n  scene: \x7b\x7d,\n)" : String).length -
            25)).count '\n'
    ∧ (spanPosition "(\n  nXme: \"A\",\n  scene: \x7b\x7d,\n)"
        (("(\n  nXme: \"A\",\n  scene: \x7b\x7d,\n)" : String).length -
          25)).line ≤
        1 + ("(\n  nXme: \"A\",\n  scene: \x7b\x7d,\n)" : String).data.count
          '\n'
    ∧ 1 ≤ (spanPosition "(\n  nXme: \"A\",\n  scene: \x7b\x7d,\n)"
        (("(\n  nXme: \"A\",\n  scene: \x7b\x7d,\n)" : String).length -
          25)).col :=
  c7_error_locality registryEx "scenes/test.prefab"
    "(\n  nXme: \"A\",\n  scene: \x7b\x7d,\n)"
    ⟨"expected field name", 25⟩ rfl

theorem deserialize_resources_nil (registry : TypeRegistry) (t : String)
    (P2 : Prefab) (h : PrefabDeserializer.deserialize registry t = .ok P2) :
    P2.scene.resources = [] := by
  rw [PrefabDeserializer.deserialize] at h
  cases h1 : expectTok '(' t.data with
  | error e =>
    simp only [h1, exceptBind_error] at h
    exact absurd h (by simp)
  | ok r1 =>
  simp only [h1, exceptBind_ok] at h
  cases h2 : skipWs r1 with
  | nil =>
    simp only [h2, errAt] at h
    exact absurd h (by simp)
  | cons c xs =>
  simp only [h2] at h
  by_cases hc : c = ')'
  · simp only [if_pos hc, errAt] at h
    exact absurd h (by simp)
  · simp only [if_neg hc] at h
    cases h3 : expectLabel "name" (c :: xs) with
    | error e =>
      simp only [h3, exceptBind_error] at h
      exact absurd h (by simp)
    | ok r2 =>
    simp only [h3, exceptBind_ok] at h
    cases h4 : expectTok ':' r2 with
    | error e =>
      simp only [h4, exceptBind_error] at h
      exact absurd h (by simp)
    | ok r3 =>
    simp only [h4, exceptBind_ok] at h
    cases h5 : parseString r3 with
    | error e =>
      simp only [h5, exceptBind_error] at h
      exact absurd h (by simp)
    | ok p =>
    obtain ⟨nm, r4⟩ := p
    simp only [h5, exceptBind_ok] at h
    cases h6 : expectTok ',' r4 with
    | error e =>
      simp only [h6, exceptBind_error] at h
      exact absurd h (by simp)
    | ok r5 =>
    simp only [h6, exceptBind_ok] at h
    cases h7 : skipWs r5 with
    | nil =>
      simp only [h7, errAt] at h
      exact absurd h (by simp)
    | cons c2 xs2 =>
    simp only [h7] at h
    by_cases hc2 : c2 = ')'
    · simp only [if_pos hc2, errAt] at h
      exact absurd h (by simp)
    · simp only [if_neg hc2] at h
      cases h8 : expectLabel "scene" (c2 :: xs2) with
      | error e =>
        simp only [h8, exceptBind_error] at h
        exact absurd h (by simp)
      | ok r6 =>
      simp only [h8, exceptBind_ok] at h
      cases h9 : expectTok ':' r6 with
      | error e =>
        simp only [h9, exceptBind_error] at h
        exact absurd h (by simp)
      | ok r7 =>
      simp only [h9, exceptBind_ok] at h
      cases h10 : SceneEntitiesDeserializer.deserialize registry
          (t.length + 1) r7 with
      | error e =>
        simp only [h10, exceptBind_error] at h
        exact absurd h (by simp)
      | ok q =>
      obtain ⟨ents, r8⟩ := q
      simp only [h10, exceptBind_ok] at h
      cases h11 : parseStructEnd r8 with
      | error e =>
        simp only [h11, exceptBind_error] at h
        exact absurd h (by simp)
      | ok r9 =>
      simp only [h11, exceptBind_ok] at h
      injection h with h12
      subst h12
      rfl

/-- C10: Resources are dropped.  Every successful deserialization yields a
scene with an empty resources list (`resources: Vec::default()` in
`visit_seq`), and serialization never reads the scene's resources — its output
on any prefab equals its output on the same prefab with resources emptied.
Together these mean a serialize-then-deserialize pass silently drops any
resources present in the input prefab. -/
theorem c10_resources_dropped :
    (∀ (registry : TypeRegistry) (t : String) (P2 : Prefab),
      PrefabDeserializer.deserialize registry t = .ok P2 →
      P2.scene.resources = []) ∧
    (∀ (P : Prefab) (registry : TypeRegistry),
      PrefabSerializer.serialize P registry =
        PrefabSerializer.serialize ⟨P.name, ⟨[], P.scene.entities⟩⟩
          registry) :=
  ⟨fun registry t P2 h => deserialize_resources_nil registry t P2 h,
   fun _ _ => rfl⟩

theorem c10_resources_dropped_witness :
    (⟨"Test", ⟨[], []⟩⟩ : Prefab).scene.resources = [] ∧
    PrefabSerializer.serialize
        ⟨"Test", ⟨[⟨"res::Type", "x"⟩], []⟩⟩ registryEx =
      PrefabSerializer.serialize ⟨"Test", ⟨[], []⟩⟩ registryEx :=
  ⟨c10_resources_dropped.1 registryEx "(\n  name: \"Test\",\n  scene: \x7b\x7d,\n)"
      ⟨"Test", ⟨[], []⟩⟩ rfl,
   c10_resources_dropped.2 ⟨"Test", ⟨[⟨"res::Type", "x"⟩], []⟩⟩ registryEx⟩
